import Mathlib

/-!
Verification of the incremental SLAM state-management layer of pybot
(`pybot/mapping/gtsam.py`, classes `BaseSLAM` and `VisualSLAM`), as a shallow
embedding.  Python dictionaries are association lists (unique keys, insertion
order preserved, in-place update keeps the position), `collections.Counter` is
an association list with default count 0, exceptions are `Option Err` results
in which mutations performed before the raising statement persist (Python
object state survives a raised exception).  The external collaborators
(pygtsam) are modelled as follows: `Pose3` is a rigid transform given by a
rational rotation matrix and translation, `Values.insert` fails on a duplicate
key, the ISAM2 solver is an opaque variable store whose `calculateEstimate`
returns a value for every variable ever given to it (the estimate itself is a
parameter of `update`), and the smart-factor triangulation diagnostics
(`isDegenerate`, `isPointBehindCamera`, `error`, `point_compute`) are an
oracle parameter of `smart_update`.  Floating-point numbers are idealised as
rationals.
-/

namespace Pybot

/-- 3-D point, modelling pygtsam `Point3`. -/
structure Point3 where
  x : ℚ
  y : ℚ
  z : ℚ
deriving DecidableEq, Repr

/-- 2-D pixel measurement, modelling pygtsam `Point2`. -/
structure Point2 where
  u : ℚ
  v : ℚ
deriving DecidableEq, Repr

/-- Rigid 6-DoF transform, modelling pygtsam `Pose3`: a 3x3 rotation matrix
(rows `r11..r33`) together with a translation `(tx, ty, tz)`. -/
structure Pose3 where
  r11 : ℚ
  r12 : ℚ
  r13 : ℚ
  r21 : ℚ
  r22 : ℚ
  r23 : ℚ
  r31 : ℚ
  r32 : ℚ
  r33 : ℚ
  tx : ℚ
  ty : ℚ
  tz : ℚ
deriving DecidableEq, Repr

/-- The identity transform, modelling the default constructor `Pose3()`. -/
def Pose3.identity : Pose3 :=
  ⟨1, 0, 0, 0, 1, 0, 0, 0, 1, 0, 0, 0⟩

/-- Composition of rigid transforms, modelling `Pose3.compose`:
`(R1,t1) . (R2,t2) = (R1 R2, R1 t2 + t1)`. -/
def Pose3.compose (a b : Pose3) : Pose3 where
  r11 := a.r11 * b.r11 + a.r12 * b.r21 + a.r13 * b.r31
  r12 := a.r11 * b.r12 + a.r12 * b.r22 + a.r13 * b.r32
  r13 := a.r11 * b.r13 + a.r12 * b.r23 + a.r13 * b.r33
  r21 := a.r21 * b.r11 + a.r22 * b.r21 + a.r23 * b.r31
  r22 := a.r21 * b.r12 + a.r22 * b.r22 + a.r23 * b.r32
  r23 := a.r21 * b.r13 + a.r22 * b.r23 + a.r23 * b.r33
  r31 := a.r31 * b.r11 + a.r32 * b.r21 + a.r33 * b.r31
  r32 := a.r31 * b.r12 + a.r32 * b.r22 + a.r33 * b.r32
  r33 := a.r31 * b.r13 + a.r32 * b.r23 + a.r33 * b.r33
  tx := a.r11 * b.tx + a.r12 * b.ty + a.r13 * b.tz + a.tx
  ty := a.r21 * b.tx + a.r22 * b.ty + a.r23 * b.tz + a.ty
  tz := a.r31 * b.tx + a.r32 * b.ty + a.r33 * b.tz + a.tz

/-- Apply a rigid transform to a point, modelling `Pose3.transform_from`:
`p -> R p + t`. -/
def Pose3.transformFrom (a : Pose3) (p : Point3) : Point3 where
  x := a.r11 * p.x + a.r12 * p.y + a.r13 * p.z + a.tx
  y := a.r21 * p.x + a.r22 * p.y + a.r23 * p.z + a.ty
  z := a.r31 * p.x + a.r32 * p.y + a.r33 * p.z + a.tz

/-- Variable key: the source packs an entity kind character (`'x'` for poses,
`'l'` for landmarks) and an integer index into a gtsam `Symbol`; modelled as a
tagged sum. -/
inductive Key where
  | x (i : ℤ)
  | l (i : ℤ)
deriving DecidableEq, Repr

/-- A value stored in a gtsam `Values` container or in the landmark map `ls_`:
either a `Pose3` or a `Point3`. -/
inductive Val where
  | poseV (p : Pose3)
  | pointV (p : Point3)
deriving DecidableEq, Repr

/-- Noise models used by the source: `Diagonal.Sigmas(v)` and
`Isotropic.Sigma(dim, sigma)`. -/
inductive Noise where
  | diagonal (sigmas : List ℚ)
  | isotropic (dim : ℕ) (sigma : ℚ)
deriving DecidableEq, Repr

/-- Camera calibration `Cal3_S2(fx, fy, skew, cx, cy)`. -/
structure Cal3S2 where
  fx : ℚ
  fy : ℚ
  skew : ℚ
  cx : ℚ
  cy : ℚ
deriving DecidableEq, Repr

/-- Factors the source adds to the pending `NonlinearFactorGraph`. -/
inductive Factor where
  | priorPose3 (k : Key) (p : Pose3) (n : Noise)
  | betweenPose3 (k1 k2 : Key) (p : Pose3) (n : Noise)
  | projection (pt : Point2) (n : Noise) (xk lk : Key) (cal : Cal3S2)
deriving DecidableEq, Repr

/-- A gtsam `SmartFactor`: the sequence of (pose key, pixel) measurements
added with `add_single`.  The per-call noise model and calibration passed to
`add_single` are the instance-wide `image_measurement_noise_` and `K_`, so
they are not duplicated per measurement. -/
structure SmartFactor where
  meas : List (Key × Point2)
deriving DecidableEq, Repr

/-- `SmartFactor.add_single(measurement, x_id, noise, K)`. -/
def SmartFactor.addSingle (f : SmartFactor) (pt : Point2) (k : Key) : SmartFactor :=
  ⟨f.meas ++ [(k, pt)]⟩

/-- One entry of `lid_factors_`: `dict(in_graph=False, factor=SmartFactor())`. -/
structure LidFactor where
  inGraph : Bool
  factor : SmartFactor
deriving DecidableEq, Repr

/-- The defaultdict default for `lid_factors_`. -/
def LidFactor.defaultEntry : LidFactor :=
  ⟨false, ⟨[]⟩⟩

/-- Triangulation diagnostics of a smart factor at the current solver
estimate, bundling `isDegenerate()`, `isPointBehindCamera()`,
`error(current)` and `point_compute(current)` of the external solver. -/
structure TriDiag where
  isDegenerate : Bool
  isPointBehindCamera : Bool
  error : ℚ
  point : Point3
deriving DecidableEq, Repr

section AssocList

variable {κ : Type} {α : Type} [DecidableEq κ]

/-- Lookup in an association list (Python `d[k]` / `k in d`): first match. -/
def lookupA : List (κ × α) → κ → Option α
  | [], _ => none
  | p :: ps, k => if p.1 = k then some p.2 else lookupA ps k

/-- Python `d[k] = v`: update in place if the key exists (keeping its
position), otherwise append at the end (insertion order). -/
def insertA : List (κ × α) → κ → α → List (κ × α)
  | [], k, v => [(k, v)]
  | p :: ps, k, v => if p.1 = k then (k, v) :: ps else p :: insertA ps k v

/-- Python `d.pop(k)` / `del d[k]` (on a unique-key list): drop the key. -/
def eraseA : List (κ × α) → κ → List (κ × α)
  | [], _ => []
  | p :: ps, k => if p.1 = k then eraseA ps k else p :: eraseA ps k

/-- Python `d.pop(k)` raising `KeyError` when the key is absent. -/
def popA (m : List (κ × α)) (k : κ) : Option (List (κ × α)) :=
  if (lookupA m k).isSome then some (eraseA m k) else none

/-- The keys of a dictionary are pairwise distinct. -/
@[reducible] def NodupKeys (m : List (κ × α)) : Prop :=
  (m.map Prod.fst).Nodup

end AssocList

section Counter

/-- Python `Counter` read `c[k]`: 0 when the key is absent. -/
def countOf (m : List (ℤ × ℕ)) (k : ℤ) : ℕ :=
  (lookupA m k).getD 0

/-- Add one observation of key `k` to a counter. -/
def incCount (m : List (ℤ × ℕ)) (k : ℤ) : List (ℤ × ℕ) :=
  insertA m k (countOf m k + 1)

/-- Python `c += Counter(ks)`: add the multiplicity of every element of `ks`. -/
def addCounts (m : List (ℤ × ℕ)) (ks : List ℤ) : List (ℤ × ℕ) :=
  ks.foldl incCount m

/-- `defaultdict(list)` append: `d[k].append(v)`. -/
def timerAppend (m : List (ℤ × List ℤ)) (k : ℤ) (lid : ℤ) : List (ℤ × List ℤ) :=
  insertA m k ((lookupA m k).getD [] ++ [lid])

end Counter

/-- Errors: Python exceptions raised by the modelled code or its collaborators.
`valuesKeyAlreadyExists` models gtsam throwing when `Values.insert` or
`ISAM2.update` receives a key that already exists, `solveFailed` models a
numerical failure inside the solver, the others model the Python exceptions
of the same names. -/
inductive Err where
  | solveFailed
  | valuesKeyAlreadyExists
  | keyError
  | runtimeError
  | assertionError
deriving DecidableEq, Repr

/-- The complete mutable state of a `BaseSLAM` / `VisualSLAM` instance.
`isamKeys` models the variable set held by the external `ISAM2` object
`slam_` (it grows by the pending initial values at each `update()` and its
`calculateEstimate` reports a value for every variable it holds);
`currentSome` models `current_ is not None`.  The configuration fields
(noise models, calibration, thresholds) are the instance attributes fixed in
the constructors; the `VisualSLAM`-only fields hold their `VisualSLAM`
defaults in a plain `BaseSLAM` and are only read by `VisualSLAM` methods. -/
structure SLAMState where
  idx : ℤ
  graph : List Factor
  initial : List (Key × Val)
  xs : List (ℤ × Pose3)
  ls : List (ℤ × Val)
  xls : List (ℤ × ℤ)
  xxs : List (ℤ × ℤ)
  timerLs : List (ℤ × List ℤ)
  lidCount : List (ℤ × ℕ)
  lidFactors : List (ℤ × LidFactor)
  isamKeys : List Key
  currentSome : Bool
  odomNoise : List ℚ
  priorNoise : List ℚ
  measurementNoise : Noise
  minLandmarkObs : ℕ
  pxErrorThreshold : ℚ
  calK : Cal3S2
  imageMeasurementNoise : Noise
deriving DecidableEq, Repr

/-- `BaseSLAM.__init__`: indices start at -1, all containers empty,
`measurement_noise_ = Isotropic.Sigma(6, 0.4)`. -/
def mkBaseSLAM (odomNoise priorNoise : List ℚ) : SLAMState where
  idx := -1
  graph := []
  initial := []
  xs := []
  ls := []
  xls := []
  xxs := []
  timerLs := []
  lidCount := []
  lidFactors := []
  isamKeys := []
  currentSome := false
  odomNoise := odomNoise
  priorNoise := priorNoise
  measurementNoise := Noise.isotropic 6 (mkRat 2 5)
  minLandmarkObs := 3
  pxErrorThreshold := 4
  calK := ⟨1, 1, 0, 0, 0⟩
  imageMeasurementNoise := Noise.diagonal [1, 1]

/-- Caller-supplied camera calibration (`calib.fx` etc.). -/
structure Calib where
  fx : ℚ
  fy : ℚ
  cx : ℚ
  cy : ℚ
deriving DecidableEq, Repr

/-- `VisualSLAM.__init__(calib, min_landmark_obs, odom_noise, prior_noise,
px_error_threshold, px_noise)`: runs the `BaseSLAM` constructor, stores the
thresholds and calibration `Cal3_S2(fx, fy, 0, cx, cy)`, and asserts
`min_landmark_obs_ >= 2`; a failed assertion aborts construction, so no
instance exists in that case (`none`). -/
def mkVisualSLAM (calib : Calib) (minLandmarkObs : ℕ) (odomNoise priorNoise : List ℚ)
    (pxErrorThreshold : ℚ) (pxNoise : List ℚ) : Option SLAMState :=
  let s := mkBaseSLAM odomNoise priorNoise
  if 2 ≤ minLandmarkObs then
    some { s with
      minLandmarkObs := minLandmarkObs
      pxErrorThreshold := pxErrorThreshold
      calK := ⟨calib.fx, calib.fy, 0, calib.cx, calib.cy⟩
      imageMeasurementNoise := Noise.diagonal pxNoise }
  else none

/-- `Values.insert`: gtsam throws if the key already exists. -/
def insertValues (m : List (Key × Val)) (k : Key) (v : Val) : Option (List (Key × Val)) :=
  if (lookupA m k).isSome then none else some (m ++ [(k, v)])

/-- `BaseSLAM.initialize(p_init, index)`: add a `PriorFactorPose3` on
`x(index)` to the pending graph, insert the pose into the pending initial
values (gtsam raises if the key is already there — the factor added just
before stays in the buffer in that case), record the pose in `xs_` and set
`idx_ = index`. -/
def initRun (s : SLAMState) (pInit : Option Pose3) (index : ℤ) : SLAMState × Option Err :=
  let pose0 := pInit.getD Pose3.identity
  let s1 := { s with
    graph := s.graph ++ [Factor.priorPose3 (Key.x index) pose0 (Noise.diagonal s.priorNoise)] }
  match insertValues s1.initial (Key.x index) (Val.poseV pose0) with
  | none => (s1, some Err.valuesKeyAlreadyExists)
  | some ini =>
      ({ s1 with initial := ini, xs := insertA s1.xs index pose0, idx := index }, none)

/-- `BaseSLAM._add_odom(xid1, xid2, delta)`: add a `BetweenFactorPose3`, look
up the previous pose (a missing pose raises `KeyError`), predict the next
pose by composition, insert it into the pending initial values and `xs_`,
and record the edge in `xxs_`. -/
def addOdomPair (s : SLAMState) (xid1 xid2 : ℤ) (delta : Pose3) : SLAMState × Option Err :=
  let s1 := { s with
    graph := s.graph ++
      [Factor.betweenPose3 (Key.x xid1) (Key.x xid2) delta (Noise.diagonal s.odomNoise)] }
  match lookupA s1.xs xid1 with
  | none => (s1, some Err.keyError)
  | some p1 =>
      let pred := p1.compose delta
      match insertValues s1.initial (Key.x xid2) (Val.poseV pred) with
      | none => (s1, some Err.valuesKeyAlreadyExists)
      | some ini =>
          ({ s1 with
              initial := ini
              xs := insertA s1.xs xid2 pred
              xxs := s1.xxs ++ [(xid1, xid2)] }, none)

/-- `BaseSLAM.add_odom_incremental(delta)`: lazily initialize with the
default prior when `idx_ < 0`, then `_add_odom(latest, latest + 1, delta)`
and `idx_ += 1` (the increment is skipped when `_add_odom` raises). -/
def addOdomIncremental (s : SLAMState) (delta : Pose3) : SLAMState × Option Err :=
  let r1 := if 0 ≤ s.idx then (s, none) else initRun s none 0
  match r1 with
  | (s1, some e) => (s1, some e)
  | (s1, none) =>
      match addOdomPair s1 s1.idx (s1.idx + 1) delta with
      | (s2, some e) => (s2, some e)
      | (s2, none) => ({ s2 with idx := s2.idx + 1 }, none)

/-- One step of the second loop of `BaseSLAM.add_pose_landmarks`: for a
landmark id not yet in `ls_`, compose the observing pose with the relative
measurement, insert the prediction into the pending initial values, `ls_`
and `timer_ls_[xid]`; any exception inside the `try` (missing pose, or
duplicate initial-values key) is re-raised as `KeyError`. -/
def addPoseLmStep (xid : ℤ) (acc : SLAMState × Option Err) (ld : ℤ × Pose3) :
    SLAMState × Option Err :=
  match acc with
  | (s, some e) => (s, some e)
  | (s, none) =>
      if (lookupA s.ls ld.1).isSome then (s, none)
      else
        match lookupA s.xs xid with
        | none => (s, some Err.keyError)
        | some px =>
            let pred := px.compose ld.2
            match insertValues s.initial (Key.l ld.1) (Val.poseV pred) with
            | none => (s, some Err.keyError)
            | some ini =>
                ({ s with
                    initial := ini
                    ls := insertA s.ls ld.1 (Val.poseV pred)
                    timerLs := timerAppend s.timerLs xid ld.1 }, none)

/-- `BaseSLAM.add_pose_landmarks(xid, lids, deltas)`: first loop adds one
`BetweenFactorPose3(x(xid), l(lid), delta, measurement_noise_)` per
measurement to the pending graph; second loop seeds each previously unseen
landmark id. -/
def addPoseLandmarks (s : SLAMState) (xid : ℤ) (lds : List (ℤ × Pose3)) :
    SLAMState × Option Err :=
  let s1 := { s with
    graph := s.graph ++ lds.map (fun ld =>
      Factor.betweenPose3 (Key.x xid) (Key.l ld.1) ld.2 s.measurementNoise) }
  lds.foldl (addPoseLmStep xid) (s1, none)

/-- One step of the second loop of `BaseSLAM.add_point_landmarks`: seed a
previously unseen point landmark with `xs_[xid].transform_from(pt3)`; any
exception is re-raised as `RuntimeError`. -/
def addPointLmStep (xid : ℤ) (acc : SLAMState × Option Err) (t : ℤ × Point2 × Point3) :
    SLAMState × Option Err :=
  match acc with
  | (s, some e) => (s, some e)
  | (s, none) =>
      if (lookupA s.ls t.1).isSome then (s, none)
      else
        match lookupA s.xs xid with
        | none => (s, some Err.runtimeError)
        | some px =>
            let pred := px.transformFrom t.2.2
            match insertValues s.initial (Key.l t.1) (Val.pointV pred) with
            | none => (s, some Err.runtimeError)
            | some ini =>
                ({ s with
                    initial := ini
                    ls := insertA s.ls t.1 (Val.pointV pred)
                    timerLs := timerAppend s.timerLs xid t.1 }, none)

/-- `BaseSLAM.add_point_landmarks(xid, lids, pts, pts3d)` (each triple is
`(lid, pt, pt3)`): adds the observed ids to `lid_count_`, adds one
`GenericProjectionFactor` per measurement to the pending graph, then seeds
each previously unseen landmark id from the observing pose. -/
def addPointLandmarks (s : SLAMState) (xid : ℤ) (ts : List (ℤ × Point2 × Point3)) :
    SLAMState × Option Err :=
  let s1 := { s with lidCount := addCounts s.lidCount (ts.map Prod.fst) }
  let s2 := { s1 with
    graph := s1.graph ++ ts.map (fun t =>
      Factor.projection t.2.1 s.imageMeasurementNoise (Key.x xid) (Key.l t.1) s.calK) }
  ts.foldl (addPointLmStep xid) (s2, none)

/-- One step of the measurement loop of `VisualSLAM.add_point_landmarks_smart`:
an already initialized landmark only records an `xls_` edge (the projection
factor is commented out in the source); an uninitialized landmark gets the
pixel measurement added to its smart factor (`lid_factors_` is a defaultdict,
so the entry is created on first access). -/
def addSmartObsStep (xid : ℤ) (s : SLAMState) (ob : ℤ × Point2) : SLAMState :=
  if (lookupA s.ls ob.1).isSome then { s with xls := s.xls ++ [(xid, ob.1)] }
  else
    let f := (lookupA s.lidFactors ob.1).getD LidFactor.defaultEntry
    { s with lidFactors :=
        insertA s.lidFactors ob.1 { f with factor := f.factor.addSingle ob.2 (Key.x xid) } }

/-- Membership test used to model `np.setdiff1d`. -/
def memInt (l : List ℤ) (k : ℤ) : Bool :=
  l.any (fun a => a = k)

/-- `VisualSLAM.add_point_landmarks_smart(xid, lids, pts, keep_tracked)`
(each pair is `(lid, pt)`): drop counter entries whose id no longer has a
smart factor, add the observed ids to the counter, process each measurement,
and when `keep_tracked` is false, pop every smart factor whose id is not in
the current observation set. -/
def addPointLandmarksSmart (s : SLAMState) (xid : ℤ) (obs : List (ℤ × Point2))
    (keepTracked : Bool) : SLAMState :=
  let cnt0 := s.lidCount.filter (fun p => (lookupA s.lidFactors p.1).isSome)
  let s1 := { s with lidCount := addCounts cnt0 (obs.map Prod.fst) }
  let s2 := obs.foldl (addSmartObsStep xid) s1
  if keepTracked then s2
  else { s2 with lidFactors := s2.lidFactors.filter (fun p => memInt (obs.map Prod.fst) p.1) }

/-- `VisualSLAM.add_point_landmarks_incremental_smart`: observe from the
latest pose. -/
def addPointLandmarksIncrementalSmart (s : SLAMState) (obs : List (ℤ × Point2))
    (keepTracked : Bool) : SLAMState :=
  addPointLandmarksSmart s s.idx obs keepTracked

/-- Accumulator of the `smart_update` loop: the mutating state, the promoted
`(id, point)` list returned by the method, and the pending exception. -/
structure SmartAcc where
  s : SLAMState
  promoted : List (ℤ × Point3)
  err : Option Err
deriving Repr

/-- The acceptance tail of one `smart_update` iteration (source lines
601-616): delete the smart factor entry (`del` of the inner factor followed
by `pop` of the id), assert that the id is not yet in `ls_` (on failure the
entry stays deleted and the `AssertionError` propagates), insert the
computed point into the pending initial values (gtsam raises on a duplicate
key), store the point in `ls_` and stamp `timer_ls_[latest]`, and append
the id and point to the method's return accumulator. -/
def promoteTail (acc : SmartAcc) (lid : ℤ) (pt3 : Point3) : SmartAcc :=
  let s := { acc.s with lidFactors := eraseA acc.s.lidFactors lid }
  if (lookupA s.ls lid).isSome then { acc with s := s, err := some Err.assertionError }
  else
    match insertValues s.initial (Key.l lid) (Val.pointV pt3) with
    | none => { acc with s := s, err := some Err.valuesKeyAlreadyExists }
    | some ini =>
        { s := { s with
            initial := ini
            ls := insertA s.ls lid (Val.pointV pt3)
            timerLs := timerAppend s.timerLs s.idx lid }
          promoted := acc.promoted ++ [(lid, pt3)]
          err := none }

/-- One iteration of the `smart_update` loop over a landmark id from the key
snapshot.  The checks, in source order: skip if `in_graph` or the
observation count is below `min_landmark_obs_`; skip if the triangulation is
degenerate or the point is behind a camera; skip if the reprojection error
exceeds `px_error_threshold_` or is non-positive; otherwise accept via
`promoteTail`.  The per-measurement loop of the source only contains
commented-out factor additions and a `pass`, so it mutates nothing.  The
access `lid_factors_[lid]` is on a defaultdict, so a missing entry would be
created with the default value.  The diagnostics of the external smart
factor at the current solver estimate are supplied by `oracle`. -/
def smartStep (oracle : ℤ → SmartFactor → TriDiag) (acc : SmartAcc) (lid : ℤ) : SmartAcc :=
  match acc.err with
  | some _ => acc
  | none =>
      let s := acc.s
      let lf := (lookupA s.lidFactors lid).getD LidFactor.defaultEntry
      let s := if (lookupA s.lidFactors lid).isSome then s
               else { s with lidFactors := insertA s.lidFactors lid lf }
      let acc1 : SmartAcc := { acc with s := s }
      if lf.inGraph || countOf s.lidCount lid < s.minLandmarkObs then acc1
      else
        let d := oracle lid lf.factor
        if d.isDegenerate || d.isPointBehindCamera then acc1
        else if s.pxErrorThreshold < d.error || d.error ≤ 0 then acc1
        else promoteTail acc1 lid d.point

/-- `VisualSLAM.smart_update()`: iterate over a snapshot of
`lid_factors_.keys()` (Python 2 `keys()` is a copy, so popping inside the
loop is safe) and process each id with `smartStep`. -/
def smartUpdate (s : SLAMState) (oracle : ℤ → SmartFactor → TriDiag) : SmartAcc :=
  (s.lidFactors.map Prod.fst).foldl (smartStep oracle) ⟨s, [], none⟩

/-- The behaviour of the external incremental solver during one `update()`
call: either a numerical failure (gtsam raises before any of the Python
maps are touched), or a full estimate assigning a value to every variable
the solver holds. -/
inductive SolverOutcome where
  | fail
  | ok (est : Key → Val)

/-- One step of the merge loop of `BaseSLAM.update()`: the source partitions
`calculateEstimate()` into `extractPose3` and `extractPoint3` results and
copies landmark values (`chr 'l'`) into `ls_` and pose values (`chr 'x'`)
into `xs_`; a `Point3` stored under an `x` key falls into the
`RuntimeError('Unknown key chr')` branch. -/
def mergeStep (est : Key → Val) (acc : SLAMState × Option Err) (k : Key) :
    SLAMState × Option Err :=
  match acc with
  | (s, some e) => (s, some e)
  | (s, none) =>
      match k, est k with
      | Key.l i, v => ({ s with ls := insertA s.ls i v }, none)
      | Key.x i, Val.poseV p => ({ s with xs := insertA s.xs i p }, none)
      | Key.x _, Val.pointV _ => (s, some Err.runtimeError)

/-- `BaseSLAM.update()`: hand the pending graph and initial values to
ISAM2 (which refuses initial values for variables it already holds), obtain
`calculateEstimate()` — a value for every variable the solver now holds —
merge every entry into `xs_` / `ls_`, and finally clear the pending buffer
(`graph_.resize(0)`; `initial_.clear()`).  A solver failure raises before
any Python-side state is touched. -/
def updateRun (s : SLAMState) (sol : SolverOutcome) : SLAMState × Option Err :=
  match sol with
  | SolverOutcome.fail => (s, some Err.solveFailed)
  | SolverOutcome.ok est =>
      if (s.initial.map Prod.fst).any (fun k => decide (k ∈ s.isamKeys)) then
        (s, some Err.valuesKeyAlreadyExists)
      else
        let allKeys := s.isamKeys ++ s.initial.map Prod.fst
        let s1 := { s with isamKeys := allKeys, currentSome := true }
        match allKeys.foldl (mergeStep est) (s1, none) with
        | (s2, some e) => (s2, some e)
        | (s2, none) => ({ s2 with graph := [], initial := [] }, none)

/-- The inner loop of `BaseSLAM.cleanup()`: pop each stale landmark id from
`ls_` (`dict.pop` raises `KeyError` when absent). -/
def popLids (acc : SLAMState × Option Err) (lids : List ℤ) : SLAMState × Option Err :=
  lids.foldl (fun a lid =>
    match a with
    | (t, some e) => (t, some e)
    | (t, none) =>
        match popA t.ls lid with
        | none => (t, some Err.keyError)
        | some ls2 => ({ t with ls := ls2 }, none)) acc

/-- One entry of the `cleanup()` loop: when the owning pose index is more
than 20 steps away from the latest index, pop all its landmark ids from
`ls_` and drop the `timer_ls_` entry.  (The pose-pruning block of the source
is commented out, so poses are never removed.) -/
def cleanupStep (idxL : ℤ) (acc : SLAMState × Option Err) (entry : ℤ × List ℤ) :
    SLAMState × Option Err :=
  match acc with
  | (s, some e) => (s, some e)
  | (s, none) =>
      if 20 < (idxL - entry.1).natAbs then
        match popLids (s, none) entry.2 with
        | (s1, some e) => (s1, some e)
        | (s1, none) => ({ s1 with timerLs := eraseA s1.timerLs entry.1 }, none)
      else (s, none)

/-- `BaseSLAM.cleanup()`: iterate over a snapshot of `timer_ls_` (the source
iterates `keys()` — a copy in Python 2 — and looks each list up before
popping; since each iteration only pops its own key, iterating the item
pairs directly is equivalent). -/
def cleanupRun (s : SLAMState) : SLAMState × Option Err :=
  s.timerLs.foldl (cleanupStep s.idx) (s, none)

/-- One caller-facing operation of an update cycle.  `initOp` is
`initialize` with the default index 0; the landmark operations are the
`*_incremental` variants, which observe from the latest pose; the solver
estimate of `updateOp` and the triangulation diagnostics of
`smartUpdateOp` are the injected behaviour of the external solver. -/
inductive Op where
  | initOp (pInit : Option Pose3)
  | odomOp (delta : Pose3)
  | poseLmOp (lds : List (ℤ × Pose3))
  | pointLmOp (ts : List (ℤ × Point2 × Point3))
  | pointLmSmartOp (obs : List (ℤ × Point2)) (keepTracked : Bool)
  | smartUpdateOp (oracle : ℤ → SmartFactor → TriDiag)
  | updateOp (sol : SolverOutcome)
  | cleanupOp

/-- Run one operation, returning the state (which keeps any mutations made
before an exception was raised, as a Python object does) and the raised
exception, if any. -/
def runOpE (s : SLAMState) : Op → SLAMState × Option Err
  | Op.initOp p => initRun s p 0
  | Op.odomOp d => addOdomIncremental s d
  | Op.poseLmOp lds => addPoseLandmarks s s.idx lds
  | Op.pointLmOp ts => addPointLandmarks s s.idx ts
  | Op.pointLmSmartOp obs kt => (addPointLandmarksSmart s s.idx obs kt, none)
  | Op.smartUpdateOp oc => ((smartUpdate s oc).s, (smartUpdate s oc).err)
  | Op.updateOp sol => updateRun s sol
  | Op.cleanupOp => cleanupRun s

/-- Run one operation, keeping only the state (the caller catches and
ignores any exception). -/
def runOp (s : SLAMState) (op : Op) : SLAMState :=
  (runOpE s op).1

/-- Run a sequence of operations. -/
def runTrace (s : SLAMState) (tr : List Op) : SLAMState :=
  tr.foldl runOp s

/-- Run a sequence of operations and also report whether every operation
completed without raising. -/
def runTraceChk (s : SLAMState) (tr : List Op) : SLAMState × Bool :=
  tr.foldl (fun a op => ((runOpE a.1 op).1, a.2 && (runOpE a.1 op).2.isNone)) (s, true)

/-- The landmark ids observed by one operation through the deferred (smart)
observation path, with multiplicity. -/
def obsOfOp : Op → List ℤ
  | Op.pointLmSmartOp obs _ => obs.map Prod.fst
  | _ => []

/-- Total number of smart observations of a landmark id over a trace. -/
def totalObs (tr : List Op) (lid : ℤ) : ℕ :=
  ((tr.map obsOfOp).flatten).count lid

/-- Traces consisting only of `add_odom_incremental` and `update` calls. -/
def OdomSolveOp : Op → Prop
  | Op.odomOp _ => True
  | Op.updateOp _ => True
  | _ => False

/-- Operations of the deferred (smart) landmark pipeline: everything except
the two direct landmark-insertion methods `add_pose_landmarks` and
`add_point_landmarks`. -/
def SmartPipelineOp : Op → Prop
  | Op.poseLmOp _ => False
  | Op.pointLmOp _ => False
  | _ => True

/-- A `BaseSLAM` instance with the default noise parameters
(`odom_noise = 6 * [0.01]`, `prior_noise = 6 * [0.001]`). -/
def baseSLAMDefault : SLAMState :=
  mkBaseSLAM (List.replicate 6 (mkRat 1 100)) (List.replicate 6 (mkRat 1 1000))

/-- A `VisualSLAM` instance with the default parameters
(`min_landmark_obs = 3`, `px_error_threshold = 4`, `px_noise = [1, 1]`)
and a trivial calibration. -/
def visualSLAMDefault : SLAMState :=
  (mkVisualSLAM ⟨1, 1, 0, 0⟩ 3 (List.replicate 6 (mkRat 1 100)) (List.replicate 6 (mkRat 1 1000))
    4 [1, 1]).getD (mkBaseSLAM [] [])

/-- Concrete run refuting the `AlreadyInitialized` guard of C8:
initialize, one odometry step, a successful solve, then a second
`initialize()`. -/
def doubleInitRun1 : SLAMState × Option Err := initRun baseSLAMDefault none 0
def doubleInitRun2 : SLAMState × Option Err := addOdomIncremental doubleInitRun1.1 Pose3.identity
def doubleInitRun3 : SLAMState × Option Err :=
  updateRun doubleInitRun2.1 (SolverOutcome.ok (fun _ => Val.poseV Pose3.identity))
def doubleInitRun4 : SLAMState × Option Err := initRun doubleInitRun3.1 none 0

/-- Triangulation diagnostics accepting every candidate: not degenerate,
not behind the camera, reprojection error 1, point (0, 0, 5). -/
def oracleAccept : ℤ → SmartFactor → TriDiag := fun _ _ => ⟨false, false, 1, ⟨0, 0, 5⟩⟩

/-- A solver estimate assigning the identity pose to every pose variable and
the point (0, 0, 5) to every landmark variable. -/
def estSimple : Key → Val := fun k =>
  match k with
  | Key.x _ => Val.poseV Pose3.identity
  | Key.l _ => Val.pointV ⟨0, 0, 5⟩

/-- Concrete trace refuting the committed/deferred mutual exclusion of C6:
landmark 7 is observed three times and promoted (pose 2), solved into the
ISAM variable set, pruned 21 poses later by `cleanup()`, then re-observed
(opening a fresh deferred accumulator) — after which the next `update()`
copies the solver's retained estimate of `l7` back into `ls_`. -/
def exclusionTrace : List Op :=
  [Op.initOp none,
   Op.pointLmSmartOp [(7, ⟨1, 2⟩)] true,
   Op.odomOp Pose3.identity,
   Op.pointLmSmartOp [(7, ⟨1, 2⟩)] true,
   Op.odomOp Pose3.identity,
   Op.pointLmSmartOp [(7, ⟨1, 2⟩)] true,
   Op.smartUpdateOp oracleAccept,
   Op.updateOp (SolverOutcome.ok estSimple)] ++
  List.replicate 21 (Op.odomOp Pose3.identity) ++
  [Op.cleanupOp,
   Op.pointLmSmartOp [(7, ⟨1, 2⟩)] true,
   Op.updateOp (SolverOutcome.ok estSimple)]

def exclusionTraceRes : SLAMState × Bool := runTraceChk visualSLAMDefault exclusionTrace

/-- Concrete run refuting C4 as stated: a single `add_point_landmarks`
observation of the previously unseen landmark id 5. -/
def underObsRun1 : SLAMState × Option Err := initRun visualSLAMDefault none 0
def underObsRun2 : SLAMState × Option Err :=
  addPointLandmarks underObsRun1.1 0 [(5, ⟨1, 2⟩, ⟨0, 0, 5⟩)]


/-- The acceptance decision of one `smart_update` iteration for a landmark
id, read off the state at the head of the iteration: the id is accepted
exactly when `in_graph` is unset, the observation count has reached
`min_landmark_obs_`, the triangulation is neither degenerate nor behind a
camera, and the reprojection error is positive and within
`px_error_threshold_`. -/
def promoteDecision (s : SLAMState) (oracle : ℤ → SmartFactor → TriDiag) (lid : ℤ) : Bool :=
  let lf := (lookupA s.lidFactors lid).getD LidFactor.defaultEntry
  if lf.inGraph || countOf s.lidCount lid < s.minLandmarkObs then false
  else
    let d := oracle lid lf.factor
    if d.isDegenerate || d.isPointBehindCamera then false
    else if s.pxErrorThreshold < d.error || d.error ≤ 0 then false
    else true

/-- The triangulated point `point_compute` reports for a landmark id's smart
factor. -/
def promotePoint (s : SLAMState) (oracle : ℤ → SmartFactor → TriDiag) (lid : ℤ) : Point3 :=
  (oracle lid ((lookupA s.lidFactors lid).getD LidFactor.defaultEntry).factor).point

/-- The scenario of C9: `initialize()`, one odometry step `d1`, one
pose-constrained landmark observation of id 1 at relative pose `d2` from
the latest pose, then `update()` with the solver returning exactly the
submitted initial values — the zero-residual configuration of this
noiseless, fully-constrained chain, hence the estimate an exact solver
returns. -/
def poseLmScenario (d1 d2 : Pose3) : SLAMState × Option Err :=
  let s1 := (initRun baseSLAMDefault none 0).1
  let s2 := (addOdomIncremental s1 d1).1
  let s3 := (addPoseLandmarks s2 s2.idx [(1, d2)]).1
  updateRun s3
    (SolverOutcome.ok (fun k => (lookupA s3.initial k).getD (Val.poseV Pose3.identity)))

/-- The landmark ids held by stale `timer_ls_` entries (owning pose index
more than 20 steps from `idxL`): exactly the ids `cleanup()` pops. -/
def oldLids (idxL : ℤ) (timer : List (ℤ × List ℤ)) : List ℤ :=
  ((timer.filter (fun e => decide (20 < (idxL - e.1).natAbs))).map Prod.snd).flatten

/-- Concrete state for the C7 witness: latest pose 100, two committed
landmarks, one owned by pose 79 (stale) and one by pose 80 (fresh). -/
def pruneWitnessState : SLAMState :=
  { visualSLAMDefault with
      idx := 100
      ls := [(1, Val.pointV ⟨0, 0, 1⟩), (2, Val.pointV ⟨0, 0, 2⟩)]
      xs := [(100, Pose3.identity)]
      timerLs := [(79, [1]), (80, [2])] }

/-- Invariant of the amended C4, relative to an upper bound `f` on the
number of smart observations of each landmark id so far: the configured
promotion threshold is `m0`; the observation counter has distinct keys and
never exceeds `f`; and any id that is committed in `ls_`, pending in the
initial values, or held by the solver has at least `m0` observations. -/
def SmartObsInv (m0 : ℕ) (f : ℤ → ℕ) (s : SLAMState) : Prop :=
  s.minLandmarkObs = m0 ∧
  NodupKeys s.lidCount ∧
  (∀ lid : ℤ, countOf s.lidCount lid ≤ f lid) ∧
  (∀ lid : ℤ, ((lookupA s.ls lid).isSome ∨ (lookupA s.initial (Key.l lid)).isSome ∨
      Key.l lid ∈ s.isamKeys) → m0 ≤ f lid)

/-! ### Lemmas and theorems -/

section AssocLemmas

variable {κ : Type} {α : Type} [DecidableEq κ]

@[simp] theorem lookupA_nil (k : κ) : lookupA ([] : List (κ × α)) k = none := rfl

@[simp] theorem lookupA_cons (p : κ × α) (ps : List (κ × α)) (k : κ) :
    lookupA (p :: ps) k = if p.1 = k then some p.2 else lookupA ps k := rfl

@[simp] theorem insertA_nil (k : κ) (v : α) : insertA ([] : List (κ × α)) k v = [(k, v)] := rfl

@[simp] theorem insertA_cons (p : κ × α) (ps : List (κ × α)) (k : κ) (v : α) :
    insertA (p :: ps) k v = if p.1 = k then (k, v) :: ps else p :: insertA ps k v := rfl

@[simp] theorem eraseA_nil (k : κ) : eraseA ([] : List (κ × α)) k = [] := rfl

@[simp] theorem eraseA_cons (p : κ × α) (ps : List (κ × α)) (k : κ) :
    eraseA (p :: ps) k = if p.1 = k then eraseA ps k else p :: eraseA ps k := rfl

theorem lookupA_insertA_self (m : List (κ × α)) (k : κ) (v : α) :
    lookupA (insertA m k v) k = some v := by
  induction m with
  | nil => simp [insertA, lookupA]
  | cons p ps ih =>
    by_cases h : p.1 = k
    · simp [insertA, lookupA, h]
    · simp [insertA, lookupA, h, ih]

theorem lookupA_insertA_ne (m : List (κ × α)) (k k' : κ) (v : α) (h : k' ≠ k) :
    lookupA (insertA m k v) k' = lookupA m k' := by
  have h' : k ≠ k' := Ne.symm h
  induction m with
  | nil => simp [insertA, lookupA, h']
  | cons p ps ih =>
    by_cases hp : p.1 = k
    · subst hp
      simp [insertA, lookupA, h']
    · by_cases hp' : p.1 = k'
      · simp [insertA, lookupA, hp, hp', h]
      · simp [insertA, lookupA, hp, hp', ih]

theorem lookupA_eraseA_self (m : List (κ × α)) (k : κ) :
    lookupA (eraseA m k) k = none := by
  induction m with
  | nil => simp [eraseA]
  | cons p ps ih =>
    by_cases h : p.1 = k
    · simp [eraseA, h, ih]
    · simp [eraseA, lookupA, h, ih]

theorem lookupA_eraseA_ne (m : List (κ × α)) (k k' : κ) (h : k' ≠ k) :
    lookupA (eraseA m k) k' = lookupA m k' := by
  induction m with
  | nil => simp [eraseA]
  | cons p ps ih =>
    by_cases hp : p.1 = k
    · subst hp
      simp [eraseA, lookupA, Ne.symm h, ih]
    · simp [eraseA, lookupA, hp, ih]

theorem lookupA_eraseA (m : List (κ × α)) (k k' : κ) :
    lookupA (eraseA m k) k' = if k' = k then none else lookupA m k' := by
  by_cases h : k' = k
  · subst h
    simp [lookupA_eraseA_self]
  · simp [h, lookupA_eraseA_ne m k k' h]

theorem lookupA_append (a b : List (κ × α)) (k : κ) :
    lookupA (a ++ b) k = ((lookupA a k).or (lookupA b k)) := by
  induction a with
  | nil => simp [lookupA]
  | cons p ps ih =>
    by_cases h : p.1 = k
    · simp [lookupA, h]
    · simp [lookupA, h, ih]

theorem lookupA_append_single_ne (m : List (κ × α)) (k k' : κ) (v : α) (h : k' ≠ k) :
    lookupA (m ++ [(k, v)]) k' = lookupA m k' := by
  rw [lookupA_append]
  cases hm : lookupA m k' with
  | some v' => simp
  | none => simp [lookupA, Ne.symm h]

theorem lookupA_none_iff_not_mem (m : List (κ × α)) (k : κ) :
    lookupA m k = none ↔ k ∉ m.map Prod.fst := by
  induction m with
  | nil => simp [lookupA]
  | cons p ps ih =>
    simp only [lookupA, List.map_cons, List.mem_cons]
    by_cases h : p.1 = k
    · simp [h]
    · simp [h, ih, Ne.symm h]

theorem lookupA_isSome_iff_mem (m : List (κ × α)) (k : κ) :
    (lookupA m k).isSome ↔ k ∈ m.map Prod.fst := by
  rw [Option.isSome_iff_ne_none, ne_eq, lookupA_none_iff_not_mem, not_not]

theorem mem_keys_insertA (m : List (κ × α)) (k a : κ) (v : α)
    (h : a ∈ (insertA m k v).map Prod.fst) : a = k ∨ a ∈ m.map Prod.fst := by
  induction m with
  | nil => simpa [insertA] using h
  | cons q qs ihq =>
    by_cases hq : q.1 = k
    · subst hq
      simpa [insertA] using h
    · simp only [insertA, hq, if_false, List.map_cons, List.mem_cons] at h
      rcases h with h' | h'
      · right; simp [h']
      · rcases ihq h' with h'' | h''
        · tauto
        · right; simp [h'']

theorem mem_keys_eraseA (m : List (κ × α)) (k a : κ)
    (h : a ∈ (eraseA m k).map Prod.fst) : a ∈ m.map Prod.fst := by
  induction m with
  | nil => simpa [eraseA] using h
  | cons q qs ihq =>
    rw [eraseA] at h
    by_cases hq : q.1 = k
    · simp only [hq, if_true] at h
      right
      exact ihq h
    · simp only [hq, if_false, List.map_cons, List.mem_cons] at h
      rcases h with h' | h'
      · simp [h']
      · right
        exact ihq h'

theorem nodupKeys_insertA (m : List (κ × α)) (k : κ) (v : α) (h : NodupKeys m) :
    NodupKeys (insertA m k v) := by
  induction m with
  | nil => simp [NodupKeys, insertA]
  | cons p ps ih =>
    rw [NodupKeys, List.map_cons, List.nodup_cons] at h
    by_cases hp : p.1 = k
    · subst hp
      simpa [NodupKeys, insertA] using h
    · have h2 := ih h.2
      rw [insertA]
      simp only [hp, if_false]
      rw [NodupKeys, List.map_cons, List.nodup_cons]
      refine ⟨?_, h2⟩
      intro hmem
      rcases mem_keys_insertA ps k p.1 v hmem with h' | h'
      · exact hp h'
      · exact h.1 h'

theorem nodupKeys_eraseA (m : List (κ × α)) (k : κ) (h : NodupKeys m) :
    NodupKeys (eraseA m k) := by
  induction m with
  | nil => simpa [NodupKeys, eraseA] using h
  | cons p ps ih =>
    rw [NodupKeys, List.map_cons, List.nodup_cons] at h
    by_cases hp : p.1 = k
    · simp only [eraseA, hp, if_true]
      exact ih h.2
    · rw [eraseA]
      simp only [hp, if_false]
      rw [NodupKeys, List.map_cons, List.nodup_cons]
      exact ⟨fun hmem => h.1 (mem_keys_eraseA ps k p.1 hmem), ih h.2⟩

theorem nodupKeys_filter (m : List (κ × α)) (q : κ × α → Bool) (h : NodupKeys m) :
    NodupKeys (m.filter q) := by
  unfold NodupKeys at *
  exact ((List.filter_sublist m).map Prod.fst).nodup h

theorem lookupA_append_isSome (a b : List (κ × α)) (k : κ) :
    (lookupA (a ++ b) k).isSome = ((lookupA a k).isSome || (lookupA b k).isSome) := by
  rw [lookupA_append]
  cases lookupA a k <;> simp

theorem lookupA_single (k k' : κ) (v : α) :
    lookupA [(k, v)] k' = if k = k' then some v else none := rfl

theorem isSome_lookupA_insertA (m : List (κ × α)) (k j : κ) (v : α)
    (h : (lookupA m j).isSome) : (lookupA (insertA m k v) j).isSome := by
  by_cases hj : j = k
  · subst hj
    rw [lookupA_insertA_self]
    rfl
  · rw [lookupA_insertA_ne m k j v hj]
    exact h

end AssocLemmas

section CounterLemmas

theorem countOf_incCount (m : List (ℤ × ℕ)) (j k : ℤ) :
    countOf (incCount m j) k = if k = j then countOf m j + 1 else countOf m k := by
  by_cases h : k = j
  · subst h
    simp [countOf, incCount, lookupA_insertA_self]
  · simp [countOf, incCount, h, lookupA_insertA_ne m j k _ h]

theorem countOf_addCounts (m : List (ℤ × ℕ)) (ks : List ℤ) (k : ℤ) :
    countOf (addCounts m ks) k = countOf m k + ks.count k := by
  induction ks generalizing m with
  | nil => simp [addCounts]
  | cons j js ih =>
    rw [addCounts, List.foldl_cons, ← addCounts, ih, countOf_incCount]
    by_cases h : k = j
    · subst h
      simp [List.count_cons]
      omega
    · have : ¬ (j == k) = true := by simpa [beq_iff_eq] using Ne.symm h
      simp [h, List.count_cons, this]

theorem nodupKeys_incCount (m : List (ℤ × ℕ)) (k : ℤ) (h : NodupKeys m) :
    NodupKeys (incCount m k) :=
  nodupKeys_insertA m k _ h

theorem nodupKeys_addCounts (m : List (ℤ × ℕ)) (ks : List ℤ) (h : NodupKeys m) :
    NodupKeys (addCounts m ks) := by
  induction ks generalizing m with
  | nil => simpa [addCounts] using h
  | cons j js ih =>
    rw [addCounts, List.foldl_cons, ← addCounts]
    exact ih _ (nodupKeys_incCount m j h)

theorem lookupA_filter_of_nodup {α : Type} (m : List (ℤ × α)) (q : ℤ × α → Bool) (k : ℤ)
    (h : NodupKeys m) :
    lookupA (m.filter q) k = none ∨ lookupA (m.filter q) k = lookupA m k := by
  induction m with
  | nil => simp [lookupA]
  | cons p ps ih =>
    rw [NodupKeys, List.map_cons, List.nodup_cons] at h
    by_cases hp : p.1 = k
    · subst hp
      by_cases hq : q p
      · right
        simp [List.filter_cons, hq, lookupA]
      · left
        have hnm : p.1 ∉ (ps.filter q).map Prod.fst :=
          fun hm => h.1 (((List.filter_sublist ps).map Prod.fst).subset hm)
        have hnone : lookupA (ps.filter q) p.1 = none :=
          (lookupA_none_iff_not_mem _ _).mpr hnm
        simp [List.filter_cons, hq, hnone]
    · have heq : lookupA ((p :: ps).filter q) k = lookupA (ps.filter q) k := by
        by_cases hq : q p
        · simp [List.filter_cons, hq, lookupA, hp]
        · simp [List.filter_cons, hq]
      rw [heq, lookupA]
      simp only [hp, if_false]
      exact ih h.2

theorem countOf_filter_le (m : List (ℤ × ℕ)) (q : ℤ × ℕ → Bool) (k : ℤ)
    (h : NodupKeys m) :
    countOf (m.filter q) k ≤ countOf m k := by
  rcases lookupA_filter_of_nodup m q k h with h' | h'
  · simp [countOf, h']
  · simp [countOf, h']


end CounterLemmas

/-- C1: a solver failure during `update()` is raised by `slam_.update` /
`calculateEstimate` before any Python-side statement of the method has
mutated `xs_`, `ls_`, `graph_` or `initial_`, so the call surfaces the
error and every one of those four containers is exactly its pre-call
value. -/
theorem solve_failure_is_atomic (s : SLAMState) :
    (updateRun s SolverOutcome.fail).2 = some Err.solveFailed ∧
    (updateRun s SolverOutcome.fail).1.xs = s.xs ∧
    (updateRun s SolverOutcome.fail).1.ls = s.ls ∧
    (updateRun s SolverOutcome.fail).1.graph = s.graph ∧
    (updateRun s SolverOutcome.fail).1.initial = s.initial := by
  simp [updateRun]

/-- Witness for C1 at a concrete instance. -/
theorem solve_failure_is_atomic_witness :
    (updateRun (mkBaseSLAM [1, 1, 1, 1, 1, 1] [1, 1, 1, 1, 1, 1]) SolverOutcome.fail).2 =
      some Err.solveFailed ∧
    (updateRun (mkBaseSLAM [1, 1, 1, 1, 1, 1] [1, 1, 1, 1, 1, 1]) SolverOutcome.fail).1.xs =
      (mkBaseSLAM [1, 1, 1, 1, 1, 1] [1, 1, 1, 1, 1, 1]).xs ∧
    (updateRun (mkBaseSLAM [1, 1, 1, 1, 1, 1] [1, 1, 1, 1, 1, 1]) SolverOutcome.fail).1.ls =
      (mkBaseSLAM [1, 1, 1, 1, 1, 1] [1, 1, 1, 1, 1, 1]).ls ∧
    (updateRun (mkBaseSLAM [1, 1, 1, 1, 1, 1] [1, 1, 1, 1, 1, 1]) SolverOutcome.fail).1.graph =
      (mkBaseSLAM [1, 1, 1, 1, 1, 1] [1, 1, 1, 1, 1, 1]).graph ∧
    (updateRun (mkBaseSLAM [1, 1, 1, 1, 1, 1] [1, 1, 1, 1, 1, 1]) SolverOutcome.fail).1.initial =
      (mkBaseSLAM [1, 1, 1, 1, 1, 1] [1, 1, 1, 1, 1, 1]).initial :=
  solve_failure_is_atomic (mkBaseSLAM [1, 1, 1, 1, 1, 1] [1, 1, 1, 1, 1, 1])

/-- C10: the `VisualSLAM` constructor asserts `min_landmark_obs_ >= 2`, so
construction with `min_landmark_obs < 2` fails and every constructed
instance satisfies `min_landmark_obs_ >= 2`. -/
theorem visual_slam_min_obs_lower_bound :
    (∀ (calib : Calib) (m : ℕ) (noA noB : List ℚ) (pe : ℚ) (px : List ℚ),
      m < 2 → mkVisualSLAM calib m noA noB pe px = none) ∧
    (∀ (calib : Calib) (m : ℕ) (noA noB : List ℚ) (pe : ℚ) (px : List ℚ) (s : SLAMState),
      mkVisualSLAM calib m noA noB pe px = some s →
      s.minLandmarkObs = m ∧ 2 ≤ s.minLandmarkObs) := by
  constructor
  · intro calib m noA noB pe px hm
    have : ¬ 2 ≤ m := by omega
    simp [mkVisualSLAM, this]
  · intro calib m noA noB pe px s hs
    by_cases h2 : 2 ≤ m
    · rw [mkVisualSLAM] at hs
      simp only [h2, if_true, Option.some_inj] at hs
      subst hs
      exact ⟨rfl, h2⟩
    · rw [mkVisualSLAM] at hs
      simp [h2] at hs

/-- Witness for C10: construction with `min_landmark_obs = 1` fails. -/
theorem visual_slam_min_obs_lower_bound_witness :
    mkVisualSLAM ⟨1, 1, 0, 0⟩ 1 [] [] 4 [1, 1] = none :=
  visual_slam_min_obs_lower_bound.1 ⟨1, 1, 0, 0⟩ 1 [] [] 4 [1, 1] (by decide)



/-- C6: the committed/deferred mutual exclusion is violated by the code.
The trace `exclusionTrace` raises no exception, yet leaves landmark id 7
with a committed `ls_` entry and an open smart-factor accumulator at the
same time: `cleanup()` removes the landmark only from `ls_` (never from the
solver), re-observation opens a deferred accumulator, and the merge loop of
`update()` copies the solver's retained estimate of the pruned id back into
`ls_`. -/
theorem prune_reobserve_solve_breaks_exclusion :
    exclusionTraceRes.2 = true ∧
    (lookupA exclusionTraceRes.1.ls 7).isSome = true ∧
    (lookupA exclusionTraceRes.1.lidFactors 7).isSome = true := by
  decide


/-- Counterexample to C4 as stated: the lifecycle observation operation
`add_point_landmarks` (cited by the claim) commits a `LandmarkNode` for a
brand new id on its very first observation, so after one observation the id
5 is present in `ls_` although its accumulated observation count, 1, is
below `min_landmark_obs_ = 3`. -/
theorem under_observed_landmark_committed :
    underObsRun1.2 = none ∧ underObsRun2.2 = none ∧
    countOf underObsRun2.1.lidCount 5 = 1 ∧
    countOf underObsRun2.1.lidCount 5 < underObsRun2.1.minLandmarkObs ∧
    (lookupA underObsRun2.1.ls 5).isSome = true := by
  decide

/-- C8: `BaseSLAM.initialize` has no double-initialization guard.  After
`initialize(); add_odom_incremental(delta); update()`, a second
`initialize()` raises nothing at all (the pending buffer was cleared by the
solve, so the `Values.insert` that would incidentally have raised succeeds):
it silently resets `idx_` from 1 back to 0 and appends a second
`PriorFactorPose3` on pose 0 to the pending graph, so the call neither
fails with `AlreadyInitialized` nor leaves the first initialization's state
unchanged. -/
theorem double_init_after_solve_succeeds :
    doubleInitRun1.2 = none ∧ doubleInitRun2.2 = none ∧ doubleInitRun3.2 = none ∧
    doubleInitRun4.2 = none ∧
    doubleInitRun3.1.idx = 1 ∧ doubleInitRun4.1.idx = 0 ∧
    doubleInitRun3.1.graph = [] ∧
    doubleInitRun4.1.graph =
      [Factor.priorPose3 (Key.x 0) Pose3.identity
        (Noise.diagonal (List.replicate 6 (mkRat 1 1000)))] := by
  decide



/-- A step of the `smart_update` loop does nothing once an exception is
pending. -/
theorem smartStep_of_err (oracle : ℤ → SmartFactor → TriDiag) (acc : SmartAcc) (lid : ℤ)
    (e : Err) (h : acc.err = some e) : smartStep oracle acc lid = acc := by
  unfold smartStep
  rw [h]

/-- Explicit form of the acceptance tail when the id is fresh in `ls_` and in
the pending initial values. -/
theorem promoteTail_of_fresh (acc : SmartAcc) (lid : ℤ) (pt3 : Point3)
    (hls : lookupA acc.s.ls lid = none)
    (hini : lookupA acc.s.initial (Key.l lid) = none) :
    promoteTail acc lid pt3 =
      { s := { acc.s with
          lidFactors := eraseA acc.s.lidFactors lid
          initial := acc.s.initial ++ [(Key.l lid, Val.pointV pt3)]
          ls := insertA acc.s.ls lid (Val.pointV pt3)
          timerLs := timerAppend acc.s.timerLs acc.s.idx lid }
        promoted := acc.promoted ++ [(lid, pt3)]
        err := none } := by
  unfold promoteTail
  simp [hls, insertValues, hini]

/-- When the id has a `lid_factors_` entry, one `smart_update` iteration is
the acceptance tail or a no-op, according to `promoteDecision`. -/
theorem smartStep_of_present (oracle : ℤ → SmartFactor → TriDiag) (acc : SmartAcc) (lid : ℤ)
    (herr : acc.err = none)
    (hsome : (lookupA acc.s.lidFactors lid).isSome) :
    smartStep oracle acc lid =
      if promoteDecision acc.s oracle lid then
        promoteTail acc lid (promotePoint acc.s oracle lid)
      else acc := by
  rcases acc with ⟨s, pr, err⟩
  simp only at herr hsome
  subst herr
  unfold smartStep promoteDecision promotePoint
  simp only [hsome, if_true]
  by_cases h1 : (((lookupA s.lidFactors lid).getD LidFactor.defaultEntry).inGraph ||
      decide (countOf s.lidCount lid < s.minLandmarkObs)) = true
  · simp [h1]
  · by_cases h2 : ((oracle lid ((lookupA s.lidFactors lid).getD
        LidFactor.defaultEntry).factor).isDegenerate ||
        (oracle lid ((lookupA s.lidFactors lid).getD
          LidFactor.defaultEntry).factor).isPointBehindCamera) = true
    · simp [h1, h2]
    · by_cases h3 : (decide (s.pxErrorThreshold <
          (oracle lid ((lookupA s.lidFactors lid).getD LidFactor.defaultEntry).factor).error) ||
          decide ((oracle lid ((lookupA s.lidFactors lid).getD
            LidFactor.defaultEntry).factor).error ≤ 0)) = true
      · simp [h1, h2, h3]
      · simp [h1, h2, h3]

/-- The acceptance tail touches `lid_factors_`, `ls_` and the pending
initial values only at its own landmark id. -/
theorem promoteTail_frame (acc : SmartAcc) (lid : ℤ) (pt3 : Point3) (k : ℤ) (hk : k ≠ lid) :
    lookupA (promoteTail acc lid pt3).s.lidFactors k = lookupA acc.s.lidFactors k ∧
    lookupA (promoteTail acc lid pt3).s.ls k = lookupA acc.s.ls k ∧
    lookupA (promoteTail acc lid pt3).s.initial (Key.l k) =
      lookupA acc.s.initial (Key.l k) := by
  have hkk : Key.l k ≠ Key.l lid := by simp [hk]
  unfold promoteTail
  by_cases hls : (lookupA acc.s.ls lid).isSome
  · simp [hls, lookupA_eraseA_ne _ _ _ hk]
  · by_cases hini : (lookupA acc.s.initial (Key.l lid)).isSome
    · simp [hls, insertValues, hini, lookupA_eraseA_ne _ _ _ hk]
    · simp [hls, insertValues, hini, lookupA_eraseA_ne _ _ _ hk,
        lookupA_insertA_ne _ _ _ _ hk, lookupA_append_single_ne _ _ _ _ hkk]

/-- The acceptance tail leaves the remaining state components unchanged. -/
theorem promoteTail_fields (acc : SmartAcc) (lid : ℤ) (pt3 : Point3) :
    (promoteTail acc lid pt3).s.graph = acc.s.graph ∧
    (promoteTail acc lid pt3).s.lidCount = acc.s.lidCount ∧
    (promoteTail acc lid pt3).s.minLandmarkObs = acc.s.minLandmarkObs ∧
    (promoteTail acc lid pt3).s.pxErrorThreshold = acc.s.pxErrorThreshold ∧
    (promoteTail acc lid pt3).s.idx = acc.s.idx ∧
    (promoteTail acc lid pt3).s.xs = acc.s.xs ∧
    (promoteTail acc lid pt3).s.isamKeys = acc.s.isamKeys := by
  unfold promoteTail
  by_cases hls : (lookupA acc.s.ls lid).isSome
  · simp [hls]
  · by_cases hini : (lookupA acc.s.initial (Key.l lid)).isSome
    · simp [hls, insertValues, hini]
    · simp [hls, insertValues, hini]

/-- When the id has no `lid_factors_` entry, the defaultdict access of
`smart_update` first creates the default entry; the rest of the iteration
is identical to running it on the state with the entry present. -/
theorem smartStep_absent (oracle : ℤ → SmartFactor → TriDiag) (s : SLAMState)
    (pr : List (ℤ × Point3)) (lid : ℤ)
    (hsome : ¬ (lookupA s.lidFactors lid).isSome = true) :
    smartStep oracle ⟨s, pr, none⟩ lid =
      smartStep oracle
        ⟨{ s with lidFactors := insertA s.lidFactors lid LidFactor.defaultEntry }, pr, none⟩
        lid := by
  have hnone : lookupA s.lidFactors lid = none := by
    cases h : lookupA s.lidFactors lid with
    | none => rfl
    | some v => rw [h] at hsome; simp at hsome
  unfold smartStep
  simp [hsome, hnone, lookupA_insertA_self]

/-- One `smart_update` iteration touches `lid_factors_`, `ls_` and the
pending initial values only at its own landmark id. -/
theorem smartStep_frame (oracle : ℤ → SmartFactor → TriDiag) (acc : SmartAcc) (lid k : ℤ)
    (hk : k ≠ lid) :
    lookupA (smartStep oracle acc lid).s.lidFactors k = lookupA acc.s.lidFactors k ∧
    lookupA (smartStep oracle acc lid).s.ls k = lookupA acc.s.ls k ∧
    lookupA (smartStep oracle acc lid).s.initial (Key.l k) =
      lookupA acc.s.initial (Key.l k) := by
  rcases acc with ⟨s, pr, err⟩
  cases err with
  | some e => simp [smartStep]
  | none =>
      have main : ∀ (t : SLAMState), (lookupA t.lidFactors lid).isSome →
          lookupA (smartStep oracle ⟨t, pr, none⟩ lid).s.lidFactors k =
            lookupA t.lidFactors k ∧
          lookupA (smartStep oracle ⟨t, pr, none⟩ lid).s.ls k = lookupA t.ls k ∧
          lookupA (smartStep oracle ⟨t, pr, none⟩ lid).s.initial (Key.l k) =
            lookupA t.initial (Key.l k) := by
        intro t ht
        rw [smartStep_of_present oracle ⟨t, pr, none⟩ lid rfl ht]
        by_cases hdec : promoteDecision t oracle lid
        · simp only [hdec, if_true]
          exact promoteTail_frame ⟨t, pr, none⟩ lid _ k hk
        · simp [hdec]
      by_cases hsome : (lookupA s.lidFactors lid).isSome
      · exact main s hsome
      · rw [smartStep_absent oracle s pr lid hsome]
        have ht : (lookupA (insertA s.lidFactors lid LidFactor.defaultEntry) lid).isSome := by
          rw [lookupA_insertA_self]
          rfl
        have h2 := main { s with lidFactors := insertA s.lidFactors lid LidFactor.defaultEntry } ht
        simpa [lookupA_insertA_ne _ _ _ _ hk] using h2

/-- One `smart_update` iteration leaves the remaining state components
unchanged. -/
theorem smartStep_fields (oracle : ℤ → SmartFactor → TriDiag) (acc : SmartAcc) (lid : ℤ) :
    (smartStep oracle acc lid).s.graph = acc.s.graph ∧
    (smartStep oracle acc lid).s.lidCount = acc.s.lidCount ∧
    (smartStep oracle acc lid).s.minLandmarkObs = acc.s.minLandmarkObs ∧
    (smartStep oracle acc lid).s.pxErrorThreshold = acc.s.pxErrorThreshold ∧
    (smartStep oracle acc lid).s.idx = acc.s.idx ∧
    (smartStep oracle acc lid).s.xs = acc.s.xs ∧
    (smartStep oracle acc lid).s.isamKeys = acc.s.isamKeys := by
  rcases acc with ⟨s, pr, err⟩
  cases err with
  | some e => simp [smartStep]
  | none =>
      have main : ∀ (t : SLAMState), (lookupA t.lidFactors lid).isSome →
          (smartStep oracle ⟨t, pr, none⟩ lid).s.graph = t.graph ∧
          (smartStep oracle ⟨t, pr, none⟩ lid).s.lidCount = t.lidCount ∧
          (smartStep oracle ⟨t, pr, none⟩ lid).s.minLandmarkObs = t.minLandmarkObs ∧
          (smartStep oracle ⟨t, pr, none⟩ lid).s.pxErrorThreshold = t.pxErrorThreshold ∧
          (smartStep oracle ⟨t, pr, none⟩ lid).s.idx = t.idx ∧
          (smartStep oracle ⟨t, pr, none⟩ lid).s.xs = t.xs ∧
          (smartStep oracle ⟨t, pr, none⟩ lid).s.isamKeys = t.isamKeys := by
        intro t ht
        rw [smartStep_of_present oracle ⟨t, pr, none⟩ lid rfl ht]
        by_cases hdec : promoteDecision t oracle lid
        · simp only [hdec, if_true]
          exact promoteTail_fields ⟨t, pr, none⟩ lid _
        · simp [hdec]
      by_cases hsome : (lookupA s.lidFactors lid).isSome
      · exact main s hsome
      · rw [smartStep_absent oracle s pr lid hsome]
        have ht : (lookupA (insertA s.lidFactors lid LidFactor.defaultEntry) lid).isSome := by
          rw [lookupA_insertA_self]
          rfl
        simpa using
          main { s with lidFactors := insertA s.lidFactors lid LidFactor.defaultEntry } ht

/-- The `smart_update` loop touches `lid_factors_`, `ls_` and the pending
initial values only at the ids it iterates over. -/
theorem smartFold_frame (oracle : ℤ → SmartFactor → TriDiag) (keys : List ℤ) :
    ∀ (acc : SmartAcc) (k : ℤ), k ∉ keys →
    lookupA (keys.foldl (smartStep oracle) acc).s.lidFactors k =
      lookupA acc.s.lidFactors k ∧
    lookupA (keys.foldl (smartStep oracle) acc).s.ls k = lookupA acc.s.ls k ∧
    lookupA (keys.foldl (smartStep oracle) acc).s.initial (Key.l k) =
      lookupA acc.s.initial (Key.l k) := by
  induction keys with
  | nil => intro acc k _; simp
  | cons hd tl ih =>
      intro acc k hk
      rw [List.foldl_cons]
      have hk1 : k ≠ hd := fun he => hk (he ▸ List.mem_cons_self hd tl)
      have hstep := smartStep_frame oracle acc hd k hk1
      have hrest := ih (smartStep oracle acc hd) k (fun hm => hk (List.mem_cons_of_mem hd hm))
      exact ⟨hrest.1.trans hstep.1, hrest.2.1.trans hstep.2.1, hrest.2.2.trans hstep.2.2⟩

/-- The `smart_update` loop leaves the remaining state components
unchanged; in particular it never adds a factor to the pending graph (the
projection-factor additions of the source are commented out). -/
theorem smartFold_fields (oracle : ℤ → SmartFactor → TriDiag) (keys : List ℤ) :
    ∀ (acc : SmartAcc),
    (keys.foldl (smartStep oracle) acc).s.graph = acc.s.graph ∧
    (keys.foldl (smartStep oracle) acc).s.lidCount = acc.s.lidCount ∧
    (keys.foldl (smartStep oracle) acc).s.minLandmarkObs = acc.s.minLandmarkObs ∧
    (keys.foldl (smartStep oracle) acc).s.pxErrorThreshold = acc.s.pxErrorThreshold ∧
    (keys.foldl (smartStep oracle) acc).s.idx = acc.s.idx ∧
    (keys.foldl (smartStep oracle) acc).s.xs = acc.s.xs ∧
    (keys.foldl (smartStep oracle) acc).s.isamKeys = acc.s.isamKeys := by
  induction keys with
  | nil => intro acc; simp
  | cons hd tl ih =>
      intro acc
      rw [List.foldl_cons]
      have hstep := smartStep_fields oracle acc hd
      have hrest := ih (smartStep oracle acc hd)
      exact ⟨hrest.1.trans hstep.1, hrest.2.1.trans hstep.2.1, hrest.2.2.1.trans hstep.2.2.1,
        hrest.2.2.2.1.trans hstep.2.2.2.1, hrest.2.2.2.2.1.trans hstep.2.2.2.2.1,
        hrest.2.2.2.2.2.1.trans hstep.2.2.2.2.2.1, hrest.2.2.2.2.2.2.trans hstep.2.2.2.2.2.2⟩

/-- The acceptance decision only depends on the id's `lid_factors_` entry,
the observation counter and the configured thresholds. -/
theorem promoteDecision_congr (s s' : SLAMState) (oracle : ℤ → SmartFactor → TriDiag) (l : ℤ)
    (hf : lookupA s'.lidFactors l = lookupA s.lidFactors l)
    (hc : s'.lidCount = s.lidCount)
    (hm : s'.minLandmarkObs = s.minLandmarkObs)
    (hp : s'.pxErrorThreshold = s.pxErrorThreshold) :
    promoteDecision s' oracle l = promoteDecision s oracle l := by
  unfold promoteDecision
  rw [hf, hc, hm, hp]

/-- The triangulated point only depends on the id's `lid_factors_` entry. -/
theorem promotePoint_congr (s s' : SLAMState) (oracle : ℤ → SmartFactor → TriDiag) (l : ℤ)
    (hf : lookupA s'.lidFactors l = lookupA s.lidFactors l) :
    promotePoint s' oracle l = promotePoint s oracle l := by
  unfold promotePoint
  rw [hf]

/-- Characterization of the `smart_update` loop over a duplicate-free key
snapshot whose ids are all deferred (absent from `ls_` and from the pending
initial values): no exception is raised, and each id is promoted — its
entry removed from `lid_factors_` and its triangulated point stored in
`ls_` — exactly when `promoteDecision` accepts it, and is left untouched
otherwise. -/
theorem smartFold_char (oracle : ℤ → SmartFactor → TriDiag) (keys : List ℤ) :
    ∀ (acc : SmartAcc),
    acc.err = none →
    keys.Nodup →
    (∀ l ∈ keys, (lookupA acc.s.lidFactors l).isSome) →
    (∀ l ∈ keys, lookupA acc.s.ls l = none) →
    (∀ l ∈ keys, lookupA acc.s.initial (Key.l l) = none) →
    (keys.foldl (smartStep oracle) acc).err = none ∧
    (∀ l ∈ keys,
      (promoteDecision acc.s oracle l = true →
        lookupA (keys.foldl (smartStep oracle) acc).s.lidFactors l = none ∧
        lookupA (keys.foldl (smartStep oracle) acc).s.ls l =
          some (Val.pointV (promotePoint acc.s oracle l))) ∧
      (promoteDecision acc.s oracle l = false →
        lookupA (keys.foldl (smartStep oracle) acc).s.lidFactors l =
          lookupA acc.s.lidFactors l ∧
        lookupA (keys.foldl (smartStep oracle) acc).s.ls l = lookupA acc.s.ls l)) := by
  induction keys with
  | nil =>
      intro acc herr _ _ _ _
      simpa using herr
  | cons hd tl ih =>
      intro acc herr hnd hpres hls hini
      have hdmem : hd ∈ hd :: tl := List.mem_cons_self hd tl
      obtain ⟨hdnot, hndt⟩ := List.nodup_cons.mp hnd
      have hpresh := hpres hd hdmem
      have hlsh := hls hd hdmem
      have hinih := hini hd hdmem
      have hstep := smartStep_of_present oracle acc hd herr hpresh
      have hne : ∀ l ∈ tl, l ≠ hd := fun l hl he => hdnot (he ▸ hl)
      have hframe := fun (l : ℤ) (h : l ≠ hd) => smartStep_frame oracle acc hd l h
      have hfields := smartStep_fields oracle acc hd
      have herr1 : (smartStep oracle acc hd).err = none := by
        rw [hstep]
        by_cases hdec : promoteDecision acc.s oracle hd
        · rw [if_pos hdec, promoteTail_of_fresh acc hd _ hlsh hinih]
        · rw [if_neg hdec]; exact herr
      have hpres1 : ∀ l ∈ tl, (lookupA (smartStep oracle acc hd).s.lidFactors l).isSome := by
        intro l hl
        rw [(hframe l (hne l hl)).1]
        exact hpres l (List.mem_cons_of_mem hd hl)
      have hls1 : ∀ l ∈ tl, lookupA (smartStep oracle acc hd).s.ls l = none := by
        intro l hl
        rw [(hframe l (hne l hl)).2.1]
        exact hls l (List.mem_cons_of_mem hd hl)
      have hini1 : ∀ l ∈ tl, lookupA (smartStep oracle acc hd).s.initial (Key.l l) = none := by
        intro l hl
        rw [(hframe l (hne l hl)).2.2]
        exact hini l (List.mem_cons_of_mem hd hl)
      have ihres := ih (smartStep oracle acc hd) herr1 hndt hpres1 hls1 hini1
      rw [List.foldl_cons]
      refine ⟨ihres.1, ?_⟩
      intro l hl
      rcases List.mem_cons.mp hl with rfl | hltl
      · -- the head id: its step effect survives the rest of the fold
        have hff := smartFold_frame oracle tl (smartStep oracle acc l) l hdnot
        constructor
        · intro hdec
          have e1 : lookupA (smartStep oracle acc l).s.lidFactors l = none := by
            rw [hstep, if_pos hdec, promoteTail_of_fresh acc l _ hlsh hinih]
            exact lookupA_eraseA_self _ _
          have e2 : lookupA (smartStep oracle acc l).s.ls l =
              some (Val.pointV (promotePoint acc.s oracle l)) := by
            rw [hstep, if_pos hdec, promoteTail_of_fresh acc l _ hlsh hinih]
            exact lookupA_insertA_self _ _ _
          exact ⟨hff.1.trans e1, hff.2.1.trans e2⟩
        · intro hdec
          have hacc : smartStep oracle acc l = acc := by
            rw [hstep, hdec]
            simp
          have e1 : lookupA (smartStep oracle acc l).s.lidFactors l =
              lookupA acc.s.lidFactors l := by rw [hacc]
          have e2 : lookupA (smartStep oracle acc l).s.ls l = lookupA acc.s.ls l := by
            rw [hacc]
          exact ⟨hff.1.trans e1, hff.2.1.trans e2⟩
      · -- a tail id: the head step preserves everything it depends on
        have hfl := hframe l (hne l hltl)
        have hcongr : promoteDecision (smartStep oracle acc hd).s oracle l =
            promoteDecision acc.s oracle l :=
          promoteDecision_congr acc.s (smartStep oracle acc hd).s oracle l hfl.1 hfields.2.1
            hfields.2.2.1 hfields.2.2.2.1
        have hpcongr : promotePoint (smartStep oracle acc hd).s oracle l =
            promotePoint acc.s oracle l :=
          promotePoint_congr acc.s (smartStep oracle acc hd).s oracle l hfl.1
        have ihl := ihres.2 l hltl
        constructor
        · intro hdec
          have hres := ihl.1 (by rw [hcongr]; exact hdec)
          rw [hpcongr] at hres
          exact hres
        · intro hdec
          have hres := ihl.2 (by rw [hcongr]; exact hdec)
          exact ⟨hres.1.trans hfl.1, hres.2.trans hfl.2.1⟩

/-- The acceptance decision under the candidate hypotheses, as the negation
of the three quality gates. -/
theorem promoteDecision_of_candidate (s : SLAMState) (oracle : ℤ → SmartFactor → TriDiag)
    (lid : ℤ) (lf : LidFactor)
    (hmem : lookupA s.lidFactors lid = some lf)
    (hin : lf.inGraph = false)
    (hcnt : s.minLandmarkObs ≤ countOf s.lidCount lid) :
    promoteDecision s oracle lid =
      !((oracle lid lf.factor).isDegenerate || (oracle lid lf.factor).isPointBehindCamera ||
        decide (s.pxErrorThreshold < (oracle lid lf.factor).error) ||
        decide ((oracle lid lf.factor).error ≤ 0)) := by
  unfold promoteDecision
  rw [hmem]
  have hnl : ¬ (countOf s.lidCount lid < s.minLandmarkObs) := Nat.not_lt.mpr hcnt
  rcases Bool.dichotomy (oracle lid lf.factor).isDegenerate with hb1 | hb1 <;>
    rcases Bool.dichotomy (oracle lid lf.factor).isPointBehindCamera with hb2 | hb2 <;>
    rcases Bool.dichotomy (decide (s.pxErrorThreshold < (oracle lid lf.factor).error))
      with hb3 | hb3 <;>
    rcases Bool.dichotomy (decide ((oracle lid lf.factor).error ≤ 0)) with hb4 | hb4 <;>
    simp [hin, hnl, hb1, hb2, hb3, hb4]

/-- C2: for a deferred candidate considered by `smart_update` (an id with a
smart factor, `in_graph` unset and at least `min_landmark_obs_`
observations), the id is skipped and stays deferred — its `lid_factors_`
entry unchanged, no `ls_` entry created, and no factor added to the pending
graph — whenever the triangulation is degenerate, or the point is behind an
observing camera, or the reprojection error exceeds the threshold or is
non-positive; when all three checks pass, the id is promoted: its entry is
removed and the triangulated point committed to `ls_`. -/
theorem smart_update_promotion_gate (s : SLAMState) (oracle : ℤ → SmartFactor → TriDiag)
    (lid : ℤ) (lf : LidFactor)
    (hnd : NodupKeys s.lidFactors)
    (hexcl : ∀ l : ℤ, (lookupA s.lidFactors l).isSome → lookupA s.ls l = none)
    (hinit : ∀ l : ℤ, (lookupA s.lidFactors l).isSome →
      lookupA s.initial (Key.l l) = none)
    (hmem : lookupA s.lidFactors lid = some lf)
    (hin : lf.inGraph = false)
    (hcnt : s.minLandmarkObs ≤ countOf s.lidCount lid) :
    (smartUpdate s oracle).s.graph = s.graph ∧
    (((oracle lid lf.factor).isDegenerate = true ∨
      (oracle lid lf.factor).isPointBehindCamera = true ∨
      s.pxErrorThreshold < (oracle lid lf.factor).error ∨
      (oracle lid lf.factor).error ≤ 0) →
      lookupA (smartUpdate s oracle).s.lidFactors lid = some lf ∧
      lookupA (smartUpdate s oracle).s.ls lid = none) ∧
    (((oracle lid lf.factor).isDegenerate = false ∧
      (oracle lid lf.factor).isPointBehindCamera = false ∧
      (oracle lid lf.factor).error ≤ s.pxErrorThreshold ∧
      0 < (oracle lid lf.factor).error) →
      lookupA (smartUpdate s oracle).s.lidFactors lid = none ∧
      lookupA (smartUpdate s oracle).s.ls lid =
        some (Val.pointV (oracle lid lf.factor).point)) := by
  have hsome : (lookupA s.lidFactors lid).isSome := by rw [hmem]; rfl
  have hkeys : lid ∈ s.lidFactors.map Prod.fst := (lookupA_isSome_iff_mem _ _).mp hsome
  have hchar := smartFold_char oracle (s.lidFactors.map Prod.fst) ⟨s, [], none⟩ rfl hnd
    (fun l hl => (lookupA_isSome_iff_mem _ _).mpr hl)
    (fun l hl => hexcl l ((lookupA_isSome_iff_mem _ _).mpr hl))
    (fun l hl => hinit l ((lookupA_isSome_iff_mem _ _).mpr hl))
  have hfields := smartFold_fields oracle (s.lidFactors.map Prod.fst) ⟨s, [], none⟩
  dsimp only at hchar hfields
  have hdec := promoteDecision_of_candidate s oracle lid lf hmem hin hcnt
  have hpt : promotePoint s oracle lid = (oracle lid lf.factor).point := by
    unfold promotePoint
    rw [hmem]
    rfl
  refine ⟨hfields.1, ?_, ?_⟩
  · intro hsk
    have hfalse : promoteDecision s oracle lid = false := by
      rw [hdec]
      rcases hsk with h | h | h | h
      · simp [h]
      · simp [h]
      · simp [h]
      · simp [h]
    have hres := (hchar.2 lid hkeys).2 hfalse
    exact ⟨hres.1.trans hmem, hres.2.trans (hexcl lid hsome)⟩
  · intro hok
    have htrue : promoteDecision s oracle lid = true := by
      rw [hdec, hok.1, hok.2.1]
      have h3 : ¬ (s.pxErrorThreshold < (oracle lid lf.factor).error) :=
        not_lt.mpr hok.2.2.1
      have h4 : ¬ ((oracle lid lf.factor).error ≤ 0) := not_le.mpr hok.2.2.2
      simp [h3, h4]
    have hres := (hchar.2 lid hkeys).1 htrue
    rw [hpt] at hres
    exact hres

/-- A concrete deferred candidate state for the `smart_update` witnesses:
landmark 7 has a three-observation smart factor and count 3. -/
def candidateState : SLAMState :=
  { visualSLAMDefault with
      lidFactors := [(7, ⟨false, ⟨[(Key.x 0, ⟨1, 2⟩), (Key.x 1, ⟨3, 4⟩), (Key.x 2, ⟨5, 6⟩)]⟩⟩)]
      lidCount := [(7, 3)] }

/-- A rejecting oracle: the triangulation is reported degenerate. -/
def oracleDegenerate : ℤ → SmartFactor → TriDiag := fun _ _ => ⟨true, false, 1, ⟨0, 0, 5⟩⟩

/-- Witness for C2 at a concrete candidate: the accepting oracle promotes
landmark 7 and the degenerate oracle leaves it deferred. -/
theorem smart_update_promotion_gate_witness :
    (lookupA (smartUpdate candidateState oracleAccept).s.lidFactors 7 = none ∧
      lookupA (smartUpdate candidateState oracleAccept).s.ls 7 =
        some (Val.pointV ⟨0, 0, 5⟩)) ∧
    (lookupA (smartUpdate candidateState oracleDegenerate).s.lidFactors 7 =
        some ⟨false, ⟨[(Key.x 0, ⟨1, 2⟩), (Key.x 1, ⟨3, 4⟩), (Key.x 2, ⟨5, 6⟩)]⟩⟩ ∧
      lookupA (smartUpdate candidateState oracleDegenerate).s.ls 7 = none) := by
  constructor
  · exact (smart_update_promotion_gate candidateState oracleAccept 7
      ⟨false, ⟨[(Key.x 0, ⟨1, 2⟩), (Key.x 1, ⟨3, 4⟩), (Key.x 2, ⟨5, 6⟩)]⟩⟩
      (by decide) (fun l _ => rfl) (fun l _ => rfl) (by decide) rfl
      (by decide)).2.2 ⟨rfl, rfl, by decide, by decide⟩
  · exact (smart_update_promotion_gate candidateState oracleDegenerate 7
      ⟨false, ⟨[(Key.x 0, ⟨1, 2⟩), (Key.x 1, ⟨3, 4⟩), (Key.x 2, ⟨5, 6⟩)]⟩⟩
      (by decide) (fun l _ => rfl) (fun l _ => rfl) (by decide) rfl
      (by decide)).2.1 (Or.inl rfl)

/-- C5: once `smart_update` accepts an id, the id's deferred accumulator is
gone (`lid_factors_` no longer has the id), and running `smart_update`
again on the resulting state with the same oracle performs no action for
that id: it is not re-promoted (no accumulator is recreated) and its
committed `ls_` entry is not re-inserted or changed. -/
theorem smart_update_promotion_idempotent (s : SLAMState) (oracle : ℤ → SmartFactor → TriDiag)
    (lid : ℤ)
    (hnd : NodupKeys s.lidFactors)
    (hexcl : ∀ l : ℤ, (lookupA s.lidFactors l).isSome → lookupA s.ls l = none)
    (hinit : ∀ l : ℤ, (lookupA s.lidFactors l).isSome →
      lookupA s.initial (Key.l l) = none)
    (hsome : (lookupA s.lidFactors lid).isSome)
    (hdec : promoteDecision s oracle lid = true) :
    lookupA (smartUpdate s oracle).s.lidFactors lid = none ∧
    lookupA (smartUpdate s oracle).s.ls lid =
      some (Val.pointV (promotePoint s oracle lid)) ∧
    lookupA (smartUpdate (smartUpdate s oracle).s oracle).s.lidFactors lid = none ∧
    lookupA (smartUpdate (smartUpdate s oracle).s oracle).s.ls lid =
      lookupA (smartUpdate s oracle).s.ls lid := by
  have hkeys : lid ∈ s.lidFactors.map Prod.fst := (lookupA_isSome_iff_mem _ _).mp hsome
  have hchar := smartFold_char oracle (s.lidFactors.map Prod.fst) ⟨s, [], none⟩ rfl hnd
    (fun l hl => (lookupA_isSome_iff_mem _ _).mpr hl)
    (fun l hl => hexcl l ((lookupA_isSome_iff_mem _ _).mpr hl))
    (fun l hl => hinit l ((lookupA_isSome_iff_mem _ _).mpr hl))
  dsimp only at hchar
  have hres := (hchar.2 lid hkeys).1 hdec
  have hres1 : lookupA (smartUpdate s oracle).s.lidFactors lid = none := hres.1
  have hres2 : lookupA (smartUpdate s oracle).s.ls lid =
      some (Val.pointV (promotePoint s oracle lid)) := hres.2
  have hgone : lid ∉ (smartUpdate s oracle).s.lidFactors.map Prod.fst := by
    intro hmem2
    have h3 := (lookupA_isSome_iff_mem ((smartUpdate s oracle).s.lidFactors) lid).mpr hmem2
    rw [hres1] at h3
    simp at h3
  have hframe2 := smartFold_frame oracle ((smartUpdate s oracle).s.lidFactors.map Prod.fst)
    ⟨(smartUpdate s oracle).s, [], none⟩ lid hgone
  dsimp only at hframe2
  exact ⟨hres1, hres2, hframe2.1.trans hres1, hframe2.2.1⟩

/-- Witness for C5 at a concrete candidate: landmark 7 is promoted once and
a second `smart_update` is a no-op for it. -/
theorem smart_update_promotion_idempotent_witness :
    lookupA (smartUpdate candidateState oracleAccept).s.lidFactors 7 = none ∧
    lookupA (smartUpdate candidateState oracleAccept).s.ls 7 =
      some (Val.pointV (promotePoint candidateState oracleAccept 7)) ∧
    lookupA (smartUpdate (smartUpdate candidateState oracleAccept).s
      oracleAccept).s.lidFactors 7 = none ∧
    lookupA (smartUpdate (smartUpdate candidateState oracleAccept).s oracleAccept).s.ls 7 =
      lookupA (smartUpdate candidateState oracleAccept).s.ls 7 :=
  smart_update_promotion_idempotent candidateState oracleAccept 7 (by decide)
    (fun l _ => rfl) (fun l _ => rfl) (by decide) (by decide)

/-- C9: for a previously unseen pose-constrained landmark id,
`add_pose_landmarks` seeds the landmark's estimate as the observing pose's
estimate composed with the relative pose, commits the id immediately to
`ls_` (every other container, in particular `lid_factors_`, is untouched —
no deferred state), and appends one binary `BetweenFactorPose3` to the
pending buffer together with the seed as the id's initial guess; and in the
scenario `initialize(); add_odometry(d1);
add_pose_landmarks(latest, 1, d2); update()` with an exact solver, the
landmark's solved estimate equals pose 1's estimate composed with `d2`
(exactly, hence within any tolerance). -/
theorem pose_landmark_immediate_commit :
    (∀ (s : SLAMState) (xid lid : ℤ) (delta px : Pose3),
      lookupA s.ls lid = none →
      lookupA s.xs xid = some px →
      lookupA s.initial (Key.l lid) = none →
      addPoseLandmarks s xid [(lid, delta)] =
        ({ s with
            graph := s.graph ++
              [Factor.betweenPose3 (Key.x xid) (Key.l lid) delta s.measurementNoise]
            initial := s.initial ++ [(Key.l lid, Val.poseV (px.compose delta))]
            ls := insertA s.ls lid (Val.poseV (px.compose delta))
            timerLs := timerAppend s.timerLs xid lid }, none)) ∧
    (∀ d1 d2 : Pose3,
      (poseLmScenario d1 d2).2 = none ∧
      lookupA (poseLmScenario d1 d2).1.xs 1 = some (Pose3.identity.compose d1) ∧
      lookupA (poseLmScenario d1 d2).1.ls 1 =
        some (Val.poseV ((Pose3.identity.compose d1).compose d2))) := by
  constructor
  · intro s xid lid delta px hls hxs hini
    simp [addPoseLandmarks, addPoseLmStep, insertValues, hls, hxs, hini]
  · intro d1 d2
    refine ⟨rfl, rfl, rfl⟩

/-- Witness for C9 at a concrete state and measurement. -/
theorem pose_landmark_immediate_commit_witness :
    addPoseLandmarks (initRun baseSLAMDefault none 0).1 0 [(5, Pose3.identity)] =
      ({ (initRun baseSLAMDefault none 0).1 with
          graph := (initRun baseSLAMDefault none 0).1.graph ++
            [Factor.betweenPose3 (Key.x 0) (Key.l 5) Pose3.identity
              (initRun baseSLAMDefault none 0).1.measurementNoise]
          initial := (initRun baseSLAMDefault none 0).1.initial ++
            [(Key.l 5, Val.poseV (Pose3.identity.compose Pose3.identity))]
          ls := insertA (initRun baseSLAMDefault none 0).1.ls 5
            (Val.poseV (Pose3.identity.compose Pose3.identity))
          timerLs := timerAppend (initRun baseSLAMDefault none 0).1.timerLs 0 5 }, none) :=
  pose_landmark_immediate_commit.1 (initRun baseSLAMDefault none 0).1 0 5 Pose3.identity
    Pose3.identity rfl rfl rfl

/-- The inner pop loop of `cleanup()` on a duplicate-free list of ids all
present in `ls_`: no `KeyError`, exactly those ids leave `ls_`, and nothing
else changes. -/
theorem popLids_char (lids : List ℤ) :
    ∀ (s : SLAMState),
    lids.Nodup →
    (∀ lid ∈ lids, (lookupA s.ls lid).isSome) →
    (popLids (s, none) lids).2 = none ∧
    (∀ lid, lookupA (popLids (s, none) lids).1.ls lid =
      if lid ∈ lids then none else lookupA s.ls lid) ∧
    (popLids (s, none) lids).1.xs = s.xs ∧
    (popLids (s, none) lids).1.timerLs = s.timerLs ∧
    (popLids (s, none) lids).1.idx = s.idx := by
  induction lids with
  | nil =>
      intro s _ _
      refine ⟨rfl, ?_, rfl, rfl, rfl⟩
      intro lid
      simp [popLids]
  | cons a as ih =>
      intro s hnd hpres
      obtain ⟨hanot, hndas⟩ := List.nodup_cons.mp hnd
      have hpa := hpres a (List.mem_cons_self a as)
      have hstep : popLids (s, none) (a :: as) =
          popLids ({ s with ls := eraseA s.ls a }, none) as := by
        unfold popLids
        rw [List.foldl_cons]
        simp [popA, hpa]
      have hpres1 : ∀ lid ∈ as, (lookupA (eraseA s.ls a) lid).isSome := by
        intro lid hl
        have hne : lid ≠ a := fun he => hanot (he ▸ hl)
        rw [lookupA_eraseA_ne s.ls a lid hne]
        exact hpres lid (List.mem_cons_of_mem a hl)
      have ihres := ih { s with ls := eraseA s.ls a } hndas hpres1
      rw [hstep]
      refine ⟨ihres.1, ?_, ihres.2.2.1, ihres.2.2.2.1, ihres.2.2.2.2⟩
      intro lid
      have hlk := ihres.2.1 lid
      by_cases hmem : lid ∈ as
      · simp only [hmem, if_true] at hlk
        simp [List.mem_cons, hmem, hlk]
      · simp only [hmem, if_false] at hlk
        by_cases hea : lid = a
        · subst hea
          rw [hlk, lookupA_eraseA_self]
          simp
        · rw [hlk, lookupA_eraseA_ne s.ls a lid hea]
          simp [List.mem_cons, hea, hmem]

/-- Splitting the stale ids of a `timer_ls_` snapshot at its head entry. -/
theorem oldLids_cons (idxL : ℤ) (e : ℤ × List ℤ) (es : List (ℤ × List ℤ)) :
    oldLids idxL (e :: es) =
      (if 20 < (idxL - e.1).natAbs then e.2 else []) ++ oldLids idxL es := by
  unfold oldLids
  rw [List.filter_cons]
  by_cases h : 20 < (idxL - e.1).natAbs
  · simp [h]
  · simp [h]

/-- The `cleanup()` loop over a `timer_ls_` snapshot whose stale ids are
duplicate-free and all present in `ls_`: no exception, exactly the stale
ids leave `ls_`, and the pose map is untouched. -/
theorem cleanupFold_char (idxL : ℤ) (entries : List (ℤ × List ℤ)) :
    ∀ (s : SLAMState),
    (oldLids idxL entries).Nodup →
    (∀ lid ∈ oldLids idxL entries, (lookupA s.ls lid).isSome) →
    (entries.foldl (cleanupStep idxL) (s, none)).2 = none ∧
    (∀ lid, lookupA (entries.foldl (cleanupStep idxL) (s, none)).1.ls lid =
      if lid ∈ oldLids idxL entries then none else lookupA s.ls lid) ∧
    (entries.foldl (cleanupStep idxL) (s, none)).1.xs = s.xs := by
  induction entries with
  | nil =>
      intro s _ _
      refine ⟨rfl, ?_, rfl⟩
      intro lid
      simp [oldLids]
  | cons e es ih =>
      intro s hnd hpres
      rw [oldLids_cons] at hnd hpres
      by_cases hold : 20 < (idxL - e.1).natAbs
      · rw [if_pos hold] at hnd hpres
        obtain ⟨hnde, hndes, hdisj⟩ := List.nodup_append.mp hnd
        have hprese : ∀ lid ∈ e.2, (lookupA s.ls lid).isSome := fun lid hl =>
          hpres lid (List.mem_append.mpr (Or.inl hl))
        have hpop := popLids_char e.2 s hnde hprese
        rcases hp : popLids (s, none) e.2 with ⟨s1, err1⟩
        rw [hp] at hpop
        simp only at hpop
        have herr1 : err1 = none := hpop.1
        subst herr1
        have hstep : (e :: es).foldl (cleanupStep idxL) (s, none) =
            es.foldl (cleanupStep idxL) ({ s1 with timerLs := eraseA s1.timerLs e.1 }, none) := by
          rw [List.foldl_cons]
          unfold cleanupStep
          simp [hold, hp]
        have hpres1 : ∀ lid ∈ oldLids idxL es,
            (lookupA ({ s1 with timerLs := eraseA s1.timerLs e.1 } : SLAMState).ls lid).isSome := by
          intro lid hl
          have hne : lid ∉ e.2 := fun he => hdisj he hl
          have := hpop.2.1 lid
          rw [if_neg hne] at this
          simp only
          rw [this]
          exact hpres lid (List.mem_append.mpr (Or.inr hl))
        have ihres := ih { s1 with timerLs := eraseA s1.timerLs e.1 } hndes hpres1
        rw [hstep]
        refine ⟨ihres.1, ?_, ?_⟩
        · intro lid
          rw [oldLids_cons, if_pos hold]
          have h2 := ihres.2.1 lid
          by_cases hmem : lid ∈ oldLids idxL es
          · rw [if_pos hmem] at h2
            rw [h2]
            simp [List.mem_append, hmem]
          · rw [if_neg hmem] at h2
            simp only at h2
            by_cases hine : lid ∈ e.2
            · rw [h2]
              have h3 := hpop.2.1 lid
              rw [if_pos hine] at h3
              rw [h3]
              simp [List.mem_append, hine]
            · rw [h2]
              have h3 := hpop.2.1 lid
              rw [if_neg hine] at h3
              rw [h3]
              simp [List.mem_append, hine, hmem]
        · rw [ihres.2.2]
          exact hpop.2.2.1
      · rw [if_neg hold] at hnd hpres
        simp only [List.nil_append] at hnd hpres
        have hstep : (e :: es).foldl (cleanupStep idxL) (s, none) =
            es.foldl (cleanupStep idxL) (s, none) := by
          rw [List.foldl_cons]
          unfold cleanupStep
          simp [hold]
        have ihres := ih s hnd hpres
        rw [hstep]
        refine ⟨ihres.1, ?_, ihres.2.2⟩
        intro lid
        have h2 := ihres.2.1 lid
        rw [oldLids_cons, if_neg hold, List.nil_append]
        exact h2

/-- C7: with the latest pose index at 100 (and the fixed window of 20 of
the source), `cleanup()` removes from `ls_` exactly the committed landmarks
whose owning `timer_ls_` entry has pose index at most 79, leaves every
younger landmark's estimate unchanged, removes no pose, and raises no
exception. -/
theorem prune_stale_char (s : SLAMState)
    (hidx : s.idx = 100)
    (hown : ∀ e ∈ s.timerLs, e.1 ≤ 100)
    (hnd : (oldLids 100 s.timerLs).Nodup)
    (hpres : ∀ lid ∈ oldLids 100 s.timerLs, (lookupA s.ls lid).isSome) :
    (cleanupRun s).2 = none ∧
    (cleanupRun s).1.xs = s.xs ∧
    (∀ lid, lookupA (cleanupRun s).1.ls lid =
      if lid ∈ oldLids 100 s.timerLs then none else lookupA s.ls lid) ∧
    (∀ lid, lid ∈ oldLids 100 s.timerLs ↔ ∃ e ∈ s.timerLs, lid ∈ e.2 ∧ e.1 ≤ 79) := by
  have hchar := cleanupFold_char 100 s.timerLs s hnd hpres
  have hrun : cleanupRun s = s.timerLs.foldl (cleanupStep 100) (s, none) := by
    unfold cleanupRun
    rw [hidx]
  rw [hrun]
  refine ⟨hchar.1, hchar.2.2, hchar.2.1, ?_⟩
  intro lid
  unfold oldLids
  simp only [List.mem_flatten, List.mem_map, List.mem_filter]
  constructor
  · rintro ⟨l2, ⟨⟨e, ⟨hmem, hde⟩, hsnd⟩, hin⟩⟩
    refine ⟨e, hmem, ?_, ?_⟩
    · rw [hsnd]; exact hin
    · have h79 := hown e hmem
      have hd : 20 < (100 - e.1).natAbs := of_decide_eq_true hde
      omega
  · rintro ⟨e, hmem, hin, h79⟩
    refine ⟨e.2, ⟨⟨e, ⟨hmem, ?_⟩, rfl⟩, hin⟩⟩
    have hd : 20 < (100 - e.1).natAbs := by omega
    exact decide_eq_true hd

/-- Witness for C7: on `pruneWitnessState` (latest pose 100), `cleanup()`
removes the landmark owned by pose 79 and keeps the one owned by pose 80,
touching no pose. -/
theorem prune_stale_char_witness :
    (cleanupRun pruneWitnessState).2 = none ∧
    (cleanupRun pruneWitnessState).1.xs = pruneWitnessState.xs ∧
    lookupA (cleanupRun pruneWitnessState).1.ls 1 = none ∧
    lookupA (cleanupRun pruneWitnessState).1.ls 2 = lookupA pruneWitnessState.ls 2 := by
  have h := prune_stale_char pruneWitnessState rfl (by decide) (by decide) (by decide)
  refine ⟨h.1, h.2.1, ?_, ?_⟩
  · have h1 := h.2.2.1 1
    rw [if_pos (by decide)] at h1
    exact h1
  · have h2 := h.2.2.1 2
    rw [if_neg (by decide)] at h2
    exact h2

/-- Full specification of `add_odom_incremental` from states whose pose map
covers indices `0..idx_` and whose pending initial values hold only pose
keys at most `idx_`: the call raises nothing, advances the latest pose
index by exactly one (from the auto-initialized index 0 when the graph was
uninitialized), and both properties are re-established. -/
theorem addOdomIncremental_spec (s : SLAMState) (delta : Pose3)
    (hxs : 0 ≤ s.idx → ∀ i : ℤ, 0 ≤ i → i ≤ s.idx → (lookupA s.xs i).isSome)
    (hini : ∀ j : ℤ, (lookupA s.initial (Key.x j)).isSome → 0 ≤ j ∧ j ≤ s.idx) :
    (addOdomIncremental s delta).2 = none ∧
    (addOdomIncremental s delta).1.idx = (if 0 ≤ s.idx then s.idx else 0) + 1 ∧
    (0 ≤ (addOdomIncremental s delta).1.idx → ∀ i : ℤ, 0 ≤ i →
      i ≤ (addOdomIncremental s delta).1.idx →
      (lookupA (addOdomIncremental s delta).1.xs i).isSome) ∧
    (∀ j : ℤ, (lookupA (addOdomIncremental s delta).1.initial (Key.x j)).isSome →
      0 ≤ j ∧ j ≤ (addOdomIncremental s delta).1.idx) := by
  by_cases h0 : 0 ≤ s.idx
  · obtain ⟨p, hp⟩ := Option.isSome_iff_exists.mp (hxs h0 s.idx h0 le_rfl)
    have hnone : lookupA s.initial (Key.x (s.idx + 1)) = none := by
      cases hl : lookupA s.initial (Key.x (s.idx + 1)) with
      | none => rfl
      | some v =>
          have hb := hini (s.idx + 1) (by rw [hl]; rfl)
          omega
    have heq : addOdomIncremental s delta =
        ({ s with
            graph := s.graph ++ [Factor.betweenPose3 (Key.x s.idx) (Key.x (s.idx + 1)) delta
              (Noise.diagonal s.odomNoise)]
            initial := s.initial ++ [(Key.x (s.idx + 1), Val.poseV (p.compose delta))]
            xs := insertA s.xs (s.idx + 1) (p.compose delta)
            xxs := s.xxs ++ [(s.idx, s.idx + 1)]
            idx := s.idx + 1 }, none) := by
      unfold addOdomIncremental addOdomPair
      rw [if_pos h0]
      simp [insertValues, hp, hnone]
    rw [heq]
    refine ⟨rfl, by rw [if_pos h0], ?_, ?_⟩
    · intro _ i h0i hle
      dsimp only at hle ⊢
      by_cases hi : i = s.idx + 1
      · subst hi
        rw [lookupA_insertA_self]
        rfl
      · rw [lookupA_insertA_ne _ _ _ _ hi]
        exact hxs h0 i h0i (by omega)
    · intro j hj
      simp only at hj
      rw [lookupA_append_isSome] at hj
      rcases Bool.or_eq_true_iff.mp hj with hold | hnew
      · have hb := hini j hold
        simp only
        omega
      · rw [lookupA_single] at hnew
        by_cases he : Key.x (s.idx + 1) = Key.x j
        · have : s.idx + 1 = j := by
            injection he
          simp only
          omega
        · rw [if_neg he] at hnew
          simp at hnew
  · have hnone0 : lookupA s.initial (Key.x 0) = none := by
      cases hl : lookupA s.initial (Key.x 0) with
      | none => rfl
      | some v =>
          have hb := hini 0 (by rw [hl]; rfl)
          omega
    have hnone1 : lookupA (s.initial ++ [(Key.x 0, Val.poseV Pose3.identity)])
        (Key.x 1) = none := by
      rw [lookupA_append, lookupA_single]
      have h01 : ¬ (Key.x 0 = Key.x (1 : ℤ)) := by
        intro he
        injection he with hi
        exact absurd hi (by omega)
      rw [if_neg h01]
      cases hl : lookupA s.initial (Key.x 1) with
      | none => rfl
      | some v =>
          have hb := hini 1 (by rw [hl]; rfl)
          omega
    have heq : addOdomIncremental s delta =
        ({ s with
            graph := (s.graph ++ [Factor.priorPose3 (Key.x 0) Pose3.identity
                (Noise.diagonal s.priorNoise)]) ++
              [Factor.betweenPose3 (Key.x 0) (Key.x 1) delta (Noise.diagonal s.odomNoise)]
            initial := (s.initial ++ [(Key.x 0, Val.poseV Pose3.identity)]) ++
              [(Key.x 1, Val.poseV (Pose3.identity.compose delta))]
            xs := insertA (insertA s.xs 0 Pose3.identity) 1 (Pose3.identity.compose delta)
            xxs := s.xxs ++ [(0, 1)]
            idx := 1 }, none) := by
      unfold addOdomIncremental initRun addOdomPair
      rw [if_neg h0]
      simp [insertValues, hnone0, hnone1, lookupA_insertA_self]
    rw [heq]
    refine ⟨rfl, by rw [if_neg h0]; rfl, ?_, ?_⟩
    · intro _ i h0i hle
      dsimp only at hle ⊢
      have : i = 0 ∨ i = 1 := by omega
      rcases this with rfl | rfl
      · have h01 : (0 : ℤ) ≠ 1 := by omega
        rw [lookupA_insertA_ne _ _ _ _ h01, lookupA_insertA_self]
        rfl
      · rw [lookupA_insertA_self]
        rfl
    · intro j hj
      simp only at hj ⊢
      rw [lookupA_append_isSome, lookupA_append_isSome] at hj
      rcases Bool.or_eq_true_iff.mp hj with hl | hnew
      · rcases Bool.or_eq_true_iff.mp hl with hold | hnew0
        · have hb := hini j hold
          omega
        · rw [lookupA_single] at hnew0
          by_cases he : Key.x (0 : ℤ) = Key.x j
          · have : (0 : ℤ) = j := by injection he
            omega
          · rw [if_neg he] at hnew0
            simp at hnew0
      · rw [lookupA_single] at hnew
        by_cases he : Key.x (1 : ℤ) = Key.x j
        · have : (1 : ℤ) = j := by injection he
          omega
        · rw [if_neg he] at hnew
          simp at hnew

/-- The merge loop of `update()` does not touch `idx_`, the pending buffer,
or the landmark bookkeeping, and only upserts into the pose map. -/
theorem mergeFold_facts (est : Key → Val) (keys : List Key) :
    ∀ (acc : SLAMState × Option Err),
    (keys.foldl (mergeStep est) acc).1.idx = acc.1.idx ∧
    (keys.foldl (mergeStep est) acc).1.initial = acc.1.initial ∧
    (keys.foldl (mergeStep est) acc).1.graph = acc.1.graph ∧
    (keys.foldl (mergeStep est) acc).1.lidCount = acc.1.lidCount ∧
    (keys.foldl (mergeStep est) acc).1.lidFactors = acc.1.lidFactors ∧
    (keys.foldl (mergeStep est) acc).1.minLandmarkObs = acc.1.minLandmarkObs ∧
    (∀ i : ℤ, (lookupA acc.1.xs i).isSome →
      (lookupA (keys.foldl (mergeStep est) acc).1.xs i).isSome) := by
  induction keys with
  | nil => intro acc; exact ⟨rfl, rfl, rfl, rfl, rfl, rfl, fun i h => h⟩
  | cons k ks ih =>
      intro acc
      rw [List.foldl_cons]
      have hstep : (mergeStep est acc k).1.idx = acc.1.idx ∧
          (mergeStep est acc k).1.initial = acc.1.initial ∧
          (mergeStep est acc k).1.graph = acc.1.graph ∧
          (mergeStep est acc k).1.lidCount = acc.1.lidCount ∧
          (mergeStep est acc k).1.lidFactors = acc.1.lidFactors ∧
          (mergeStep est acc k).1.minLandmarkObs = acc.1.minLandmarkObs ∧
          (∀ i : ℤ, (lookupA acc.1.xs i).isSome →
            (lookupA (mergeStep est acc k).1.xs i).isSome) := by
        rcases acc with ⟨t, err⟩
        cases err with
        | some e => exact ⟨rfl, rfl, rfl, rfl, rfl, rfl, fun i h => h⟩
        | none =>
            cases k with
            | l i => exact ⟨rfl, rfl, rfl, rfl, rfl, rfl, fun i h => h⟩
            | x i =>
                cases hv : est (Key.x i) with
                | poseV p =>
                    have hm : mergeStep est (t, none) (Key.x i) =
                        ({ t with xs := insertA t.xs i p }, none) := by
                      simp [mergeStep, hv]
                    rw [hm]
                    exact ⟨rfl, rfl, rfl, rfl, rfl, rfl,
                      fun j h => isSome_lookupA_insertA t.xs i j p h⟩
                | pointV p =>
                    have hm : mergeStep est (t, none) (Key.x i) =
                        (t, some Err.runtimeError) := by
                      simp [mergeStep, hv]
                    rw [hm]
                    exact ⟨rfl, rfl, rfl, rfl, rfl, rfl, fun j h => h⟩
      have ihres := ih (mergeStep est acc k)
      exact ⟨ihres.1.trans hstep.1, ihres.2.1.trans hstep.2.1, ihres.2.2.1.trans hstep.2.2.1,
        ihres.2.2.2.1.trans hstep.2.2.2.1, ihres.2.2.2.2.1.trans hstep.2.2.2.2.1,
        ihres.2.2.2.2.2.1.trans hstep.2.2.2.2.2.1,
        fun i h => ihres.2.2.2.2.2.2 i (hstep.2.2.2.2.2.2 i h)⟩

/-- `update()` preserves the pose-coverage and pending-key invariants of
C3: it never changes `idx_`, only upserts into the pose map, and either
clears the pending initial values or leaves them unchanged. -/
theorem updateRun_inv (s : SLAMState) (sol : SolverOutcome)
    (hxs : 0 ≤ s.idx → ∀ i : ℤ, 0 ≤ i → i ≤ s.idx → (lookupA s.xs i).isSome)
    (hini : ∀ j : ℤ, (lookupA s.initial (Key.x j)).isSome → 0 ≤ j ∧ j ≤ s.idx) :
    (0 ≤ (updateRun s sol).1.idx → ∀ i : ℤ, 0 ≤ i → i ≤ (updateRun s sol).1.idx →
      (lookupA (updateRun s sol).1.xs i).isSome) ∧
    (∀ j : ℤ, (lookupA (updateRun s sol).1.initial (Key.x j)).isSome →
      0 ≤ j ∧ j ≤ (updateRun s sol).1.idx) := by
  cases sol with
  | fail => exact ⟨hxs, hini⟩
  | ok est =>
      unfold updateRun
      by_cases hdup : ((s.initial.map Prod.fst).any (fun k => decide (k ∈ s.isamKeys))) = true
      · simp only [hdup, if_true]
        exact ⟨hxs, hini⟩
      · simp only [hdup, if_false, Bool.false_eq_true]
        set s1 : SLAMState := { s with isamKeys := s.isamKeys ++ s.initial.map Prod.fst, currentSome := true } with hs1
        have hm := mergeFold_facts est (s.isamKeys ++ s.initial.map Prod.fst) (s1, none)
        rcases hf : (s.isamKeys ++ s.initial.map Prod.fst).foldl (mergeStep est) (s1, none)
          with ⟨s2, err2⟩
        rw [hf] at hm
        simp only at hm
        cases err2 with
        | some e =>
            simp only
            constructor
            · intro h0 i h0i hle
              rw [hm.1] at hle
              exact hm.2.2.2.2.2.2 i (hxs (by rw [hm.1] at h0; exact h0) i h0i hle)
            · intro j hj
              rw [hm.2.1] at hj
              rw [hm.1]
              exact hini j hj
        | none =>
            simp only
            constructor
            · intro h0 i h0i hle
              rw [hm.1] at hle
              exact hm.2.2.2.2.2.2 i (hxs (by rw [hm.1] at h0; exact h0) i h0i hle)
            · intro j hj
              simp [lookupA] at hj

/-- The C3 invariant holds after any trace of `add_odom_incremental` and
`update` operations. -/
theorem odomSolve_trace_inv (tr : List Op) :
    ∀ (s : SLAMState),
    (∀ op ∈ tr, OdomSolveOp op) →
    ((0 ≤ s.idx → ∀ i : ℤ, 0 ≤ i → i ≤ s.idx → (lookupA s.xs i).isSome) ∧
     (∀ j : ℤ, (lookupA s.initial (Key.x j)).isSome → 0 ≤ j ∧ j ≤ s.idx)) →
    ((0 ≤ (runTrace s tr).idx → ∀ i : ℤ, 0 ≤ i → i ≤ (runTrace s tr).idx →
       (lookupA (runTrace s tr).xs i).isSome) ∧
     (∀ j : ℤ, (lookupA (runTrace s tr).initial (Key.x j)).isSome →
       0 ≤ j ∧ j ≤ (runTrace s tr).idx)) := by
  induction tr with
  | nil => intro s _ hinv; exact hinv
  | cons op ops ih =>
      intro s halpha hinv
      have hop := halpha op (List.mem_cons_self op ops)
      have hops : ∀ o ∈ ops, OdomSolveOp o := fun o ho =>
        halpha o (List.mem_cons_of_mem op ho)
      have hstep : (0 ≤ (runOp s op).idx → ∀ i : ℤ, 0 ≤ i → i ≤ (runOp s op).idx →
          (lookupA (runOp s op).xs i).isSome) ∧
          (∀ j : ℤ, (lookupA (runOp s op).initial (Key.x j)).isSome →
            0 ≤ j ∧ j ≤ (runOp s op).idx) := by
        cases op with
        | odomOp d =>
            have hs := addOdomIncremental_spec s d hinv.1 hinv.2
            exact ⟨hs.2.2.1, hs.2.2.2⟩
        | updateOp sol => exact updateRun_inv s sol hinv.1 hinv.2
        | initOp p => exact absurd hop (by simp [OdomSolveOp])
        | poseLmOp lds => exact absurd hop (by simp [OdomSolveOp])
        | pointLmOp ts => exact absurd hop (by simp [OdomSolveOp])
        | pointLmSmartOp obs kt => exact absurd hop (by simp [OdomSolveOp])
        | smartUpdateOp oc => exact absurd hop (by simp [OdomSolveOp])
        | cleanupOp => exact absurd hop (by simp [OdomSolveOp])
      have := ih (runOp s op) hops hstep
      simpa [runTrace, List.foldl_cons] using this

/-- C3: after any sequence of `add_odom_incremental` and `update` calls on
a fresh `BaseSLAM`, one more `add_odom_incremental` raises nothing and
advances `latest` by exactly one — from the auto-initialized pose 0 on an
uninitialized graph — and every pose index from 0 up to `latest` has a
defined estimate in the pose map (in particular after a solve). -/
theorem odometry_increment_and_coverage (noA noB : List ℚ) (tr : List Op) (delta : Pose3)
    (halpha : ∀ op ∈ tr, OdomSolveOp op) :
    (addOdomIncremental (runTrace (mkBaseSLAM noA noB) tr) delta).2 = none ∧
    (addOdomIncremental (runTrace (mkBaseSLAM noA noB) tr) delta).1.idx =
      (if 0 ≤ (runTrace (mkBaseSLAM noA noB) tr).idx
       then (runTrace (mkBaseSLAM noA noB) tr).idx else 0) + 1 ∧
    (0 ≤ (runTrace (mkBaseSLAM noA noB) tr).idx →
      ∀ i : ℤ, 0 ≤ i → i ≤ (runTrace (mkBaseSLAM noA noB) tr).idx →
        (lookupA (runTrace (mkBaseSLAM noA noB) tr).xs i).isSome) := by
  have hinv0 : (0 ≤ (mkBaseSLAM noA noB).idx → ∀ i : ℤ, 0 ≤ i →
      i ≤ (mkBaseSLAM noA noB).idx → (lookupA (mkBaseSLAM noA noB).xs i).isSome) ∧
      (∀ j : ℤ, (lookupA (mkBaseSLAM noA noB).initial (Key.x j)).isSome →
        0 ≤ j ∧ j ≤ (mkBaseSLAM noA noB).idx) := by
    constructor
    · intro h0
      simp [mkBaseSLAM] at h0
    · intro j hj
      simp [mkBaseSLAM, lookupA] at hj
  have hinv := odomSolve_trace_inv tr (mkBaseSLAM noA noB) halpha hinv0
  have hs := addOdomIncremental_spec (runTrace (mkBaseSLAM noA noB) tr) delta hinv.1 hinv.2
  exact ⟨hs.1, hs.2.1, hinv.1⟩

/-- Witness for C3 on the trace odometry, solve, odometry: the next
odometry call succeeds and yields pose index 3, and pose 2 has an
estimate. -/
theorem odometry_increment_and_coverage_witness :
    (addOdomIncremental (runTrace (mkBaseSLAM [] [])
      [Op.odomOp Pose3.identity, Op.updateOp (SolverOutcome.ok estSimple),
       Op.odomOp Pose3.identity]) Pose3.identity).2 = none ∧
    (addOdomIncremental (runTrace (mkBaseSLAM [] [])
      [Op.odomOp Pose3.identity, Op.updateOp (SolverOutcome.ok estSimple),
       Op.odomOp Pose3.identity]) Pose3.identity).1.idx = 3 ∧
    (lookupA (runTrace (mkBaseSLAM [] [])
      [Op.odomOp Pose3.identity, Op.updateOp (SolverOutcome.ok estSimple),
       Op.odomOp Pose3.identity]).xs 2).isSome = true := by
  have halpha : ∀ op ∈ [Op.odomOp Pose3.identity, Op.updateOp (SolverOutcome.ok estSimple),
      Op.odomOp Pose3.identity], OdomSolveOp op := by
    intro op hop
    simp only [List.mem_cons, List.not_mem_nil, or_false] at hop
    rcases hop with rfl | rfl | rfl
    · trivial
    · trivial
    · trivial
  have h := odometry_increment_and_coverage [] []
    [Op.odomOp Pose3.identity, Op.updateOp (SolverOutcome.ok estSimple),
     Op.odomOp Pose3.identity] Pose3.identity halpha
  refine ⟨h.1, h.2.1.trans (by decide), ?_⟩
  exact h.2.2 (by decide) 2 (by decide) (by decide)

/-- A fold preserves a property preserved by each of its steps. -/
theorem foldl_preserves_mem {β γ : Type} (P : β → Prop) (g : β → γ → β) (l : List γ) :
    ∀ (b : β), P b → (∀ (x : β) (a : γ), a ∈ l → P x → P (g x a)) → P (l.foldl g b) := by
  induction l with
  | nil => intro b hb _; exact hb
  | cons a as ih =>
      intro b hb hstep
      rw [List.foldl_cons]
      exact ih (g b a) (hstep b a (List.mem_cons_self a as) hb)
        (fun x a' ha' hx => hstep x a' (List.mem_cons_of_mem a ha') hx)

/-- Total smart observations of a trace split at its head operation. -/
theorem totalObs_cons (op : Op) (ops : List Op) (lid : ℤ) :
    totalObs (op :: ops) lid = (obsOfOp op).count lid + totalObs ops lid := by
  simp [totalObs, List.count_append]

/-- The invariant is monotone in the observation bound. -/
theorem SmartObsInv_mono (m0 : ℕ) (f g : ℤ → ℕ) (s : SLAMState)
    (hfg : ∀ lid, f lid ≤ g lid) (h : SmartObsInv m0 f s) : SmartObsInv m0 g s :=
  ⟨h.1, h.2.1, fun lid => (h.2.2.1 lid).trans (hfg lid),
    fun lid hs => (h.2.2.2 lid hs).trans (hfg lid)⟩

/-- `initialize` touches none of the landmark bookkeeping and adds only a
pose key to the pending initial values. -/
theorem initRun_C4facts (s : SLAMState) (p : Option Pose3) (index : ℤ) :
    (initRun s p index).1.minLandmarkObs = s.minLandmarkObs ∧
    (initRun s p index).1.lidCount = s.lidCount ∧
    (initRun s p index).1.ls = s.ls ∧
    (initRun s p index).1.isamKeys = s.isamKeys ∧
    (∀ lid : ℤ, (lookupA (initRun s p index).1.initial (Key.l lid)).isSome →
      (lookupA s.initial (Key.l lid)).isSome) := by
  by_cases hI : (lookupA s.initial (Key.x index)).isSome
  · have heq : (initRun s p index).1 =
        { s with graph := s.graph ++ [Factor.priorPose3 (Key.x index) (p.getD Pose3.identity)
            (Noise.diagonal s.priorNoise)] } := by
      simp [initRun, insertValues, hI]
    rw [heq]
    exact ⟨rfl, rfl, rfl, rfl, fun lid h => h⟩
  · have heq : (initRun s p index).1 =
        { s with
          graph := s.graph ++ [Factor.priorPose3 (Key.x index) (p.getD Pose3.identity)
            (Noise.diagonal s.priorNoise)]
          initial := s.initial ++ [(Key.x index, Val.poseV (p.getD Pose3.identity))]
          xs := insertA s.xs index (p.getD Pose3.identity)
          idx := index } := by
      simp [initRun, insertValues, hI]
    rw [heq]
    refine ⟨rfl, rfl, rfl, rfl, ?_⟩
    intro lid h
    dsimp only at h
    rw [lookupA_append_isSome] at h
    rcases Bool.or_eq_true_iff.mp h with hold | hnew
    · exact hold
    · rw [lookupA_single, if_neg (by simp)] at hnew
      simp at hnew

/-- `_add_odom` touches none of the landmark bookkeeping and adds only a
pose key to the pending initial values. -/
theorem addOdomPair_C4facts (s : SLAMState) (x1 x2 : ℤ) (delta : Pose3) :
    (addOdomPair s x1 x2 delta).1.minLandmarkObs = s.minLandmarkObs ∧
    (addOdomPair s x1 x2 delta).1.lidCount = s.lidCount ∧
    (addOdomPair s x1 x2 delta).1.ls = s.ls ∧
    (addOdomPair s x1 x2 delta).1.isamKeys = s.isamKeys ∧
    (∀ lid : ℤ, (lookupA (addOdomPair s x1 x2 delta).1.initial (Key.l lid)).isSome →
      (lookupA s.initial (Key.l lid)).isSome) := by
  cases hx : lookupA s.xs x1 with
  | none =>
      have heq : (addOdomPair s x1 x2 delta).1 =
          { s with graph := s.graph ++ [Factor.betweenPose3 (Key.x x1) (Key.x x2) delta
              (Noise.diagonal s.odomNoise)] } := by
        simp [addOdomPair, hx]
      rw [heq]
      exact ⟨rfl, rfl, rfl, rfl, fun lid h => h⟩
  | some p1 =>
      by_cases hI : (lookupA s.initial (Key.x x2)).isSome
      · have heq : (addOdomPair s x1 x2 delta).1 =
            { s with graph := s.graph ++ [Factor.betweenPose3 (Key.x x1) (Key.x x2) delta
                (Noise.diagonal s.odomNoise)] } := by
          simp [addOdomPair, hx, insertValues, hI]
        rw [heq]
        exact ⟨rfl, rfl, rfl, rfl, fun lid h => h⟩
      · have heq : (addOdomPair s x1 x2 delta).1 =
            { s with
              graph := s.graph ++ [Factor.betweenPose3 (Key.x x1) (Key.x x2) delta
                (Noise.diagonal s.odomNoise)]
              initial := s.initial ++ [(Key.x x2, Val.poseV (p1.compose delta))]
              xs := insertA s.xs x2 (p1.compose delta)
              xxs := s.xxs ++ [(x1, x2)] } := by
          simp [addOdomPair, hx, insertValues, hI]
        rw [heq]
        refine ⟨rfl, rfl, rfl, rfl, ?_⟩
        intro lid h
        dsimp only at h
        rw [lookupA_append_isSome] at h
        rcases Bool.or_eq_true_iff.mp h with hold | hnew
        · exact hold
        · rw [lookupA_single, if_neg (by simp)] at hnew
          simp at hnew

/-- `add_odom_incremental` touches none of the landmark bookkeeping and
adds only pose keys to the pending initial values. -/
theorem addOdomIncremental_C4facts (s : SLAMState) (delta : Pose3) :
    (addOdomIncremental s delta).1.minLandmarkObs = s.minLandmarkObs ∧
    (addOdomIncremental s delta).1.lidCount = s.lidCount ∧
    (addOdomIncremental s delta).1.ls = s.ls ∧
    (addOdomIncremental s delta).1.isamKeys = s.isamKeys ∧
    (∀ lid : ℤ, (lookupA (addOdomIncremental s delta).1.initial (Key.l lid)).isSome →
      (lookupA s.initial (Key.l lid)).isSome) := by
  unfold addOdomIncremental
  by_cases h0 : 0 ≤ s.idx
  · have hfacts := addOdomPair_C4facts s s.idx (s.idx + 1) delta
    rcases hp : addOdomPair s s.idx (s.idx + 1) delta with ⟨s2, err2⟩
    rw [hp] at hfacts
    simp only at hfacts
    rw [if_pos h0]
    dsimp only
    rw [hp]
    cases err2 with
    | some e => exact hfacts
    | none => exact hfacts
  · have hfA := initRun_C4facts s none 0
    rcases hi : initRun s none 0 with ⟨sA, errA⟩
    rw [hi] at hfA
    simp only at hfA
    rw [if_neg h0]
    cases errA with
    | some e => exact hfA
    | none =>
        have hfacts := addOdomPair_C4facts sA sA.idx (sA.idx + 1) delta
        rcases hp : addOdomPair sA sA.idx (sA.idx + 1) delta with ⟨s2, err2⟩
        rw [hp] at hfacts
        simp only at hfacts
        dsimp only
        rw [hp]
        have hcomp : s2.minLandmarkObs = s.minLandmarkObs ∧ s2.lidCount = s.lidCount ∧
            s2.ls = s.ls ∧ s2.isamKeys = s.isamKeys ∧
            (∀ lid : ℤ, (lookupA s2.initial (Key.l lid)).isSome →
              (lookupA s.initial (Key.l lid)).isSome) :=
          ⟨hfacts.1.trans hfA.1, hfacts.2.1.trans hfA.2.1, hfacts.2.2.1.trans hfA.2.2.1,
            hfacts.2.2.2.1.trans hfA.2.2.2.1,
            fun lid h => hfA.2.2.2.2 lid (hfacts.2.2.2.2 lid h)⟩
        cases err2 with
        | some e => exact hcomp
        | none => exact hcomp

/-- One measurement step of `add_point_landmarks_smart` only touches
`xls_` and `lid_factors_`. -/
theorem addSmartObsStep_fields (xid : ℤ) (t : SLAMState) (ob : ℤ × Point2) :
    (addSmartObsStep xid t ob).minLandmarkObs = t.minLandmarkObs ∧
    (addSmartObsStep xid t ob).lidCount = t.lidCount ∧
    (addSmartObsStep xid t ob).ls = t.ls ∧
    (addSmartObsStep xid t ob).isamKeys = t.isamKeys ∧
    (addSmartObsStep xid t ob).initial = t.initial := by
  unfold addSmartObsStep
  by_cases h : (lookupA t.ls ob.1).isSome
  · simp [h]
  · simp [h]

/-- `add_point_landmarks_smart` leaves `ls_`, the pending initial values
and the solver variables unchanged, keeps the observation counter's keys
distinct, and bounds the new count of every id by the old count plus the
id's multiplicity in the observation batch. -/
theorem addPointLandmarksSmart_C4facts (s : SLAMState) (xid : ℤ) (obs : List (ℤ × Point2))
    (kt : Bool) (hnd : NodupKeys s.lidCount) :
    (addPointLandmarksSmart s xid obs kt).minLandmarkObs = s.minLandmarkObs ∧
    NodupKeys (addPointLandmarksSmart s xid obs kt).lidCount ∧
    (addPointLandmarksSmart s xid obs kt).ls = s.ls ∧
    (addPointLandmarksSmart s xid obs kt).isamKeys = s.isamKeys ∧
    (addPointLandmarksSmart s xid obs kt).initial = s.initial ∧
    (∀ lid : ℤ, countOf (addPointLandmarksSmart s xid obs kt).lidCount lid ≤
      countOf s.lidCount lid + (obs.map Prod.fst).count lid) := by
  unfold addPointLandmarksSmart
  set cnt1 := addCounts (s.lidCount.filter (fun p => (lookupA s.lidFactors p.1).isSome))
    (obs.map Prod.fst) with hcnt1
  set s1 : SLAMState := { s with lidCount := cnt1 } with hs1
  have hfold : ∀ (l : List (ℤ × Point2)) (t : SLAMState),
      (l.foldl (addSmartObsStep xid) t).minLandmarkObs = t.minLandmarkObs ∧
      (l.foldl (addSmartObsStep xid) t).lidCount = t.lidCount ∧
      (l.foldl (addSmartObsStep xid) t).ls = t.ls ∧
      (l.foldl (addSmartObsStep xid) t).isamKeys = t.isamKeys ∧
      (l.foldl (addSmartObsStep xid) t).initial = t.initial := by
    intro l
    induction l with
    | nil => intro t; exact ⟨rfl, rfl, rfl, rfl, rfl⟩
    | cons a as ih =>
        intro t
        rw [List.foldl_cons]
        have hstep := addSmartObsStep_fields xid t a
        have hrest := ih (addSmartObsStep xid t a)
        exact ⟨hrest.1.trans hstep.1, hrest.2.1.trans hstep.2.1, hrest.2.2.1.trans hstep.2.2.1,
          hrest.2.2.2.1.trans hstep.2.2.2.1, hrest.2.2.2.2.trans hstep.2.2.2.2⟩
  have hf := hfold obs s1
  have hnd1 : NodupKeys cnt1 :=
    nodupKeys_addCounts _ _ (nodupKeys_filter s.lidCount _ hnd)
  have hbound : ∀ lid : ℤ, countOf cnt1 lid ≤
      countOf s.lidCount lid + (obs.map Prod.fst).count lid := by
    intro lid
    rw [hcnt1, countOf_addCounts]
    have := countOf_filter_le s.lidCount (fun p => (lookupA s.lidFactors p.1).isSome) lid hnd
    omega
  by_cases hk : kt
  · simp only [hk, if_true]
    exact ⟨hf.1, by rw [hf.2.1]; exact hnd1, hf.2.2.1, hf.2.2.2.1, hf.2.2.2.2,
      fun lid => by rw [hf.2.1]; exact hbound lid⟩
  · simp only [hk, if_false, Bool.false_eq_true]
    exact ⟨hf.1, by rw [hf.2.1]; exact hnd1, hf.2.2.1, hf.2.2.2.1, hf.2.2.2.2,
      fun lid => by rw [hf.2.1]; exact hbound lid⟩

/-- An id accepted by the promotion gate has reached the observation
threshold. -/
theorem promoteDecision_count (s : SLAMState) (oracle : ℤ → SmartFactor → TriDiag) (lid : ℤ)
    (h : promoteDecision s oracle lid = true) :
    s.minLandmarkObs ≤ countOf s.lidCount lid := by
  by_contra hc
  have hlt : countOf s.lidCount lid < s.minLandmarkObs := Nat.not_le.mp hc
  unfold promoteDecision at h
  simp [hlt] at h

/-- An entry surviving an erase was present before. -/
theorem isSome_of_eraseA {κ α : Type} [DecidableEq κ] (m : List (κ × α)) (k j : κ)
    (h : (lookupA (eraseA m k) j).isSome) : (lookupA m j).isSome := by
  by_cases hj : j = k
  · subst hj
    rw [lookupA_eraseA_self] at h
    simp at h
  · rw [lookupA_eraseA_ne m k j hj] at h
    exact h

/-- The invariant transfers along an operation that leaves the landmark
bookkeeping untouched and only shrinks the landmark keys of the pending
initial values. -/
theorem SmartObsInv_transfer (m0 : ℕ) (f : ℤ → ℕ) (s s' : SLAMState)
    (h : SmartObsInv m0 f s)
    (h1 : s'.minLandmarkObs = s.minLandmarkObs)
    (h2 : s'.lidCount = s.lidCount)
    (h3 : s'.ls = s.ls)
    (h4 : s'.isamKeys = s.isamKeys)
    (h5 : ∀ lid : ℤ, (lookupA s'.initial (Key.l lid)).isSome →
      (lookupA s.initial (Key.l lid)).isSome) :
    SmartObsInv m0 f s' := by
  refine ⟨h1.trans h.1, ?_, ?_, ?_⟩
  · rw [h2]
    exact h.2.1
  · intro lid
    rw [h2]
    exact h.2.2.1 lid
  · intro lid hsrc
    apply h.2.2.2 lid
    rcases hsrc with hl | hl | hl
    · left
      rw [h3] at hl
      exact hl
    · right; left
      exact h5 lid hl
    · right; right
      rw [h4] at hl
      exact hl

/-- One `smart_update` iteration preserves the invariant: it commits an id
to `ls_` and to the pending initial values only when the gate has seen at
least `min_landmark_obs_` observations of it. -/
theorem smartStep_obsInv (oracle : ℤ → SmartFactor → TriDiag) (m0 : ℕ) (f : ℤ → ℕ)
    (acc : SmartAcc) (lid : ℤ)
    (h : SmartObsInv m0 f acc.s) : SmartObsInv m0 f (smartStep oracle acc lid).s := by
  rcases acc with ⟨s, pr, err⟩
  cases err with
  | some e => simpa [smartStep] using h
  | none =>
      have main : ∀ (t : SLAMState), (lookupA t.lidFactors lid).isSome →
          SmartObsInv m0 f t → SmartObsInv m0 f (smartStep oracle ⟨t, pr, none⟩ lid).s := by
        intro t ht hinv
        rw [smartStep_of_present oracle ⟨t, pr, none⟩ lid rfl ht]
        by_cases hdec : promoteDecision t oracle lid
        · simp only [hdec, if_true]
          have hcnt : m0 ≤ f lid := by
            have h1 := promoteDecision_count t oracle lid hdec
            rw [hinv.1] at h1
            exact h1.trans (hinv.2.2.1 lid)
          unfold promoteTail
          by_cases hls : (lookupA t.ls lid).isSome
          · simp only [hls, if_true]
            exact ⟨hinv.1, hinv.2.1, hinv.2.2.1, fun l hsrc => hinv.2.2.2 l (by
              rcases hsrc with hl | hl | hl
              · exact Or.inl hl
              · exact Or.inr (Or.inl hl)
              · exact Or.inr (Or.inr hl))⟩
          · simp only [hls, if_false, Bool.false_eq_true]
            by_cases hini : (lookupA t.initial (Key.l lid)).isSome
            · simp only [insertValues, hini, if_true]
              exact ⟨hinv.1, hinv.2.1, hinv.2.2.1, fun l hsrc => hinv.2.2.2 l (by
                rcases hsrc with hl | hl | hl
                · exact Or.inl hl
                · exact Or.inr (Or.inl hl)
                · exact Or.inr (Or.inr hl))⟩
            · simp only [insertValues, hini, if_false, Bool.false_eq_true]
              refine ⟨hinv.1, hinv.2.1, hinv.2.2.1, ?_⟩
              intro l hsrc
              dsimp only at hsrc
              by_cases hl : l = lid
              · subst hl
                exact hcnt
              · apply hinv.2.2.2 l
                rcases hsrc with hsl | hsl | hsl
                · left
                  rw [lookupA_insertA_ne _ _ _ _ hl] at hsl
                  exact hsl
                · right; left
                  rw [lookupA_append_isSome] at hsl
                  rcases Bool.or_eq_true_iff.mp hsl with hold | hnew
                  · exact hold
                  · rw [lookupA_single] at hnew
                    have : ¬ (Key.l lid = Key.l l) := by
                      intro he
                      injection he with hi
                      exact hl hi.symm
                    rw [if_neg this] at hnew
                    simp at hnew
                · right; right
                  exact hsl
        · simp only [hdec, if_false, Bool.false_eq_true]
          exact hinv
      by_cases hsome : (lookupA s.lidFactors lid).isSome
      · exact main s hsome h
      · rw [smartStep_absent oracle s pr lid hsome]
        have ht : (lookupA (insertA s.lidFactors lid LidFactor.defaultEntry) lid).isSome := by
          rw [lookupA_insertA_self]
          rfl
        exact main { s with lidFactors := insertA s.lidFactors lid LidFactor.defaultEntry } ht
          ⟨h.1, h.2.1, h.2.2.1, h.2.2.2⟩

/-- `smart_update` preserves the invariant. -/
theorem smartUpdate_obsInv (s : SLAMState) (oracle : ℤ → SmartFactor → TriDiag)
    (m0 : ℕ) (f : ℤ → ℕ) (h : SmartObsInv m0 f s) :
    SmartObsInv m0 f (smartUpdate s oracle).s := by
  unfold smartUpdate
  exact foldl_preserves_mem (fun acc => SmartObsInv m0 f acc.s) (smartStep oracle)
    (s.lidFactors.map Prod.fst) ⟨s, [], none⟩ h
    (fun x a _ hx => smartStep_obsInv oracle m0 f x a hx)

/-- `update()` preserves the invariant: the keys it hands to the solver and
then merges back into the landmark map are exactly the pending ones, which
the invariant already bounds. -/
theorem updateRun_obsInv (s : SLAMState) (sol : SolverOutcome) (m0 : ℕ) (f : ℤ → ℕ)
    (h : SmartObsInv m0 f s) : SmartObsInv m0 f (updateRun s sol).1 := by
  cases sol with
  | fail => exact h
  | ok est =>
      unfold updateRun
      by_cases hdup : ((s.initial.map Prod.fst).any (fun k => decide (k ∈ s.isamKeys))) = true
      · simp only [hdup, if_true]
        exact h
      · simp only [hdup, if_false, Bool.false_eq_true]
        set s1 : SLAMState := { s with isamKeys := s.isamKeys ++ s.initial.map Prod.fst, currentSome := true } with hs1
        have hinv1 : SmartObsInv m0 f s1 := by
          refine ⟨h.1, h.2.1, h.2.2.1, ?_⟩
          intro lid hsrc
          apply h.2.2.2 lid
          rcases hsrc with hl | hl | hl
          · exact Or.inl hl
          · exact Or.inr (Or.inl hl)
          · rw [hs1] at hl
            simp only [List.mem_append] at hl
            rcases hl with hl | hl
            · exact Or.inr (Or.inr hl)
            · right; left
              exact (lookupA_isSome_iff_mem s.initial (Key.l lid)).mpr hl
        have hP := foldl_preserves_mem
          (fun t : SLAMState × Option Err => SmartObsInv m0 f t.1 ∧ t.1.isamKeys = s1.isamKeys)
          (mergeStep est) s1.isamKeys (s1, none) ⟨hinv1, rfl⟩ ?_
        · rcases hf : s1.isamKeys.foldl (mergeStep est) (s1, none) with ⟨s2, err2⟩
          rw [hf] at hP
          simp only at hP
          cases err2 with
          | some e => exact hP.1
          | none =>
              dsimp only
              refine ⟨hP.1.1, hP.1.2.1, hP.1.2.2.1, ?_⟩
              intro lid hsrc
              apply hP.1.2.2.2 lid
              rcases hsrc with hl | hl | hl
              · exact Or.inl hl
              · simp [lookupA] at hl
              · exact Or.inr (Or.inr hl)
        · intro x a ha hx
          rcases x with ⟨t, err⟩
          cases err with
          | some e => exact hx
          | none =>
              cases a with
              | l i =>
                  have hm : mergeStep est (t, none) (Key.l i) =
                      ({ t with ls := insertA t.ls i (est (Key.l i)) }, none) := rfl
                  rw [hm]
                  simp only at hx ⊢
                  refine ⟨⟨hx.1.1, hx.1.2.1, hx.1.2.2.1, ?_⟩, hx.2⟩
                  intro l hsrc
                  by_cases hl : l = i
                  · subst hl
                    apply hx.1.2.2.2 l
                    right; right
                    rw [hx.2]
                    exact ha
                  · apply hx.1.2.2.2 l
                    rcases hsrc with hsl | hsl | hsl
                    · left
                      rw [lookupA_insertA_ne _ _ _ _ hl] at hsl
                      exact hsl
                    · exact Or.inr (Or.inl hsl)
                    · exact Or.inr (Or.inr hsl)
              | x i =>
                  cases hv : est (Key.x i) with
                  | poseV p =>
                      have hm : mergeStep est (t, none) (Key.x i) =
                          ({ t with xs := insertA t.xs i p }, none) := by
                        simp [mergeStep, hv]
                      rw [hm]
                      simp only at hx ⊢
                      exact ⟨⟨hx.1.1, hx.1.2.1, hx.1.2.2.1, fun l hsrc =>
                        hx.1.2.2.2 l hsrc⟩, hx.2⟩
                  | pointV p =>
                      have hm : mergeStep est (t, none) (Key.x i) =
                          (t, some Err.runtimeError) := by
                        simp [mergeStep, hv]
                      rw [hm]
                      exact hx

/-- The inner pop loop of `cleanup()` preserves the invariant (it only
removes `ls_` entries). -/
theorem popLids_obsInv (lids : List ℤ) (acc : SLAMState × Option Err) (m0 : ℕ) (f : ℤ → ℕ)
    (h : SmartObsInv m0 f acc.1) : SmartObsInv m0 f (popLids acc lids).1 := by
  unfold popLids
  refine foldl_preserves_mem (fun t : SLAMState × Option Err => SmartObsInv m0 f t.1) _
    lids acc h ?_
  intro x a _ hx
  rcases x with ⟨t, err⟩
  cases err with
  | some e => exact hx
  | none =>
      by_cases hpop : (lookupA t.ls a).isSome
      · have hm : (match popA t.ls a with
            | none => (t, some Err.keyError)
            | some ls2 => ({ t with ls := ls2 }, none)) =
            ({ t with ls := eraseA t.ls a }, none) := by
          simp [popA, hpop]
        simp only
        rw [hm]
        simp only at hx ⊢
        refine ⟨hx.1, hx.2.1, hx.2.2.1, ?_⟩
        intro l hsrc
        apply hx.2.2.2 l
        rcases hsrc with hsl | hsl | hsl
        · exact Or.inl (isSome_of_eraseA t.ls a l hsl)
        · exact Or.inr (Or.inl hsl)
        · exact Or.inr (Or.inr hsl)
      · have hm : (match popA t.ls a with
            | none => (t, some Err.keyError)
            | some ls2 => ({ t with ls := ls2 }, none)) = (t, some Err.keyError) := by
          simp [popA, hpop]
        simp only
        rw [hm]
        exact hx

/-- `cleanup()` preserves the invariant. -/
theorem cleanupRun_obsInv (s : SLAMState) (m0 : ℕ) (f : ℤ → ℕ)
    (h : SmartObsInv m0 f s) : SmartObsInv m0 f (cleanupRun s).1 := by
  unfold cleanupRun
  refine foldl_preserves_mem (fun t : SLAMState × Option Err => SmartObsInv m0 f t.1) _
    s.timerLs (s, none) h ?_
  intro x a _ hx
  rcases x with ⟨t, err⟩
  cases err with
  | some e => exact hx
  | none =>
      unfold cleanupStep
      by_cases hold : 20 < (s.idx - a.1).natAbs
      · simp only [hold, if_true]
        have hp := popLids_obsInv a.2 (t, none) m0 f hx
        rcases hf : popLids (t, none) a.2 with ⟨t1, err1⟩
        rw [hf] at hp
        simp only at hp
        cases err1 with
        | some e => exact hp
        | none => exact ⟨hp.1, hp.2.1, hp.2.2.1, fun l hsrc => hp.2.2.2 l hsrc⟩
      · simp only [hold, if_false]
        exact hx

/-- One operation of the smart pipeline preserves the invariant, with the
observation bound grown by the operation's own smart observations. -/
theorem smartPipeline_step_inv (op : Op) (s : SLAMState) (m0 : ℕ) (f : ℤ → ℕ)
    (hop : SmartPipelineOp op) (h : SmartObsInv m0 f s) :
    SmartObsInv m0 (fun lid => f lid + (obsOfOp op).count lid) (runOp s op) := by
  have hmono : ∀ lid, f lid ≤ f lid + (obsOfOp op).count lid :=
    fun lid => Nat.le_add_right _ _
  cases op with
  | initOp p =>
      have hfacts := initRun_C4facts s p 0
      exact SmartObsInv_mono m0 f _ _ hmono
        (SmartObsInv_transfer m0 f s _ h hfacts.1 hfacts.2.1 hfacts.2.2.1 hfacts.2.2.2.1
          hfacts.2.2.2.2)
  | odomOp d =>
      have hfacts := addOdomIncremental_C4facts s d
      exact SmartObsInv_mono m0 f _ _ hmono
        (SmartObsInv_transfer m0 f s _ h hfacts.1 hfacts.2.1 hfacts.2.2.1 hfacts.2.2.2.1
          hfacts.2.2.2.2)
  | poseLmOp lds => exact absurd hop (by simp [SmartPipelineOp])
  | pointLmOp ts => exact absurd hop (by simp [SmartPipelineOp])
  | pointLmSmartOp obs kt =>
      have hfacts := addPointLandmarksSmart_C4facts s s.idx obs kt h.2.1
      show SmartObsInv m0 _ (addPointLandmarksSmart s s.idx obs kt)
      refine ⟨hfacts.1.trans h.1, hfacts.2.1, ?_, ?_⟩
      · intro lid
        have hb := hfacts.2.2.2.2.2 lid
        have hc := h.2.2.1 lid
        simp only [obsOfOp]
        omega
      · intro lid hsrc
        have hm := h.2.2.2 lid (by
          rcases hsrc with hl | hl | hl
          · left
            rw [hfacts.2.2.1] at hl
            exact hl
          · right; left
            rw [hfacts.2.2.2.2.1] at hl
            exact hl
          · right; right
            rw [hfacts.2.2.2.1] at hl
            exact hl)
        exact hm.trans (hmono lid)
  | smartUpdateOp oc =>
      exact SmartObsInv_mono m0 f _ _ hmono (smartUpdate_obsInv s oc m0 f h)
  | updateOp sol =>
      exact SmartObsInv_mono m0 f _ _ hmono (updateRun_obsInv s sol m0 f h)
  | cleanupOp =>
      exact SmartObsInv_mono m0 f _ _ hmono (cleanupRun_obsInv s m0 f h)

/-- The invariant holds along any smart-pipeline trace, with the bound
grown by the trace's total smart observations. -/
theorem smartPipeline_trace_inv (tr : List Op) :
    ∀ (s : SLAMState) (m0 : ℕ) (f : ℤ → ℕ),
    (∀ op ∈ tr, SmartPipelineOp op) →
    SmartObsInv m0 f s →
    SmartObsInv m0 (fun lid => f lid + totalObs tr lid) (runTrace s tr) := by
  induction tr with
  | nil =>
      intro s m0 f _ h
      refine SmartObsInv_mono m0 f _ s (fun lid => ?_) h
      simp [totalObs]
  | cons op ops ih =>
      intro s m0 f halpha h
      have hop := halpha op (List.mem_cons_self op ops)
      have hops : ∀ o ∈ ops, SmartPipelineOp o := fun o ho =>
        halpha o (List.mem_cons_of_mem op ho)
      have hstep := smartPipeline_step_inv op s m0 f hop h
      have hrec := ih (runOp s op) m0 (fun lid => f lid + (obsOfOp op).count lid) hops hstep
      have hgoal : SmartObsInv m0
          (fun lid => (f lid + (obsOfOp op).count lid) + totalObs ops lid)
          (runTrace (runOp s op) ops) := hrec
      have heq : runTrace s (op :: ops) = runTrace (runOp s op) ops := by
        simp [runTrace]
      rw [heq]
      refine SmartObsInv_mono m0 _ _ _ (fun lid => ?_) hgoal
      rw [totalObs_cons]
      omega

/-- Amended C4: restricted to the deferred (smart) pipeline — smart
observation, promotion, solve, prune, odometry, initialization — a landmark
id whose total number of smart observations over the whole run is below
`min_landmark_obs` is never present in `ls_` as a landmark node.  (The
in-code counter `lid_count_` never exceeds that total.)  The direct
insertion method `add_point_landmarks`, cited by the claim, is excluded: it
commits a brand-new id on its first observation
(`under_observed_landmark_committed`). -/
theorem smart_pipeline_under_observed_never_committed
    (calib : Calib) (m : ℕ) (noA noB : List ℚ) (pe : ℚ) (px : List ℚ)
    (s0 : SLAMState) (tr : List Op) (lid : ℤ)
    (hmk : mkVisualSLAM calib m noA noB pe px = some s0)
    (halpha : ∀ op ∈ tr, SmartPipelineOp op)
    (hobs : totalObs tr lid < m) :
    lookupA (runTrace s0 tr).ls lid = none := by
  have hs0 : s0.minLandmarkObs = m ∧ s0.lidCount = [] ∧ s0.ls = [] ∧
      s0.initial = [] ∧ s0.isamKeys = [] := by
    unfold mkVisualSLAM at hmk
    by_cases h2 : 2 ≤ m
    · simp only [h2, if_true, Option.some_inj] at hmk
      subst hmk
      exact ⟨rfl, rfl, rfl, rfl, rfl⟩
    · simp [h2] at hmk
  have hinv0 : SmartObsInv m (fun _ => 0) s0 := by
    refine ⟨hs0.1, ?_, ?_, ?_⟩
    · rw [hs0.2.1]
      simp [NodupKeys]
    · intro l
      rw [hs0.2.1]
      simp [countOf, lookupA]
    · intro l hsrc
      rcases hsrc with hl | hl | hl
      · rw [hs0.2.2.1] at hl
        simp [lookupA] at hl
      · rw [hs0.2.2.2.1] at hl
        simp [lookupA] at hl
      · rw [hs0.2.2.2.2] at hl
        simp at hl
  have hinv := smartPipeline_trace_inv tr s0 m (fun _ => 0) halpha hinv0
  cases hl : lookupA (runTrace s0 tr).ls lid with
  | none => rfl
  | some v =>
      have hsrc := hinv.2.2.2 lid (Or.inl (by rw [hl]; rfl))
      simp only [Nat.zero_add] at hsrc
      omega

/-- Witness for the amended C4: two smart observations of id 7 (below the
threshold 3), a promotion attempt and a solve leave id 7 out of `ls_`. -/
theorem smart_pipeline_under_observed_never_committed_witness :
    lookupA (runTrace visualSLAMDefault
      [Op.pointLmSmartOp [(7, ⟨1, 2⟩)] true,
       Op.odomOp Pose3.identity,
       Op.pointLmSmartOp [(7, ⟨1, 2⟩)] true,
       Op.smartUpdateOp oracleAccept,
       Op.updateOp (SolverOutcome.ok estSimple)]).ls 7 = none := by
  apply smart_pipeline_under_observed_never_committed ⟨1, 1, 0, 0⟩ 3
    (List.replicate 6 (mkRat 1 100)) (List.replicate 6 (mkRat 1 1000)) 4 [1, 1]
    visualSLAMDefault _ 7 rfl
  · intro op hop
    simp only [List.mem_cons, List.not_mem_nil, or_false] at hop
    rcases hop with rfl | rfl | rfl | rfl | rfl
    · trivial
    · trivial
    · trivial
    · trivial
    · trivial
  · decide

end Pybot
